import Mathlib

/-!
# Profile aggregator: embedding and verified properties

A shallow embedding of the Go packages `internal/domain`, `internal/usecase`,
`internal/infra/cache` and `internal/transport/httpapi`.

Modelling conventions.

* A Go `map[string]T` is an association list `GoMap T`.  `GoMap.get` returns the
  first binding of a key and `GoMap.set` overwrites that binding in place (or
  appends a new one), so a map built by `set` from the empty map never holds a
  key twice.  A `range` loop visits the bindings in list order; quantifying
  over every list covers every iteration order Go may choose.
* Go `int` priorities are `Int`; they are only compared, never added.
* A value of type `any` is a `Value`; the type assertion `v.(string)` is
  `Value.asString`.
* Goroutines of `GetProfile` hold the mutex for the whole `range data` loop,
  so a run is determined by the order in which the successful fetches take
  the lock.  That order is the parameter `sched`.
* Log output is not modelled.
-/

namespace ProfileAggregator

/-! ## Go maps -/

/-- Association-list model of a Go `map[string]α`. -/
abbrev GoMap (α : Type) := List (String × α)

namespace GoMap

/-- The lookup `v, ok := m[k]`. -/
def get {α : Type} : GoMap α → String → Option α
  | [], _ => none
  | (k', v) :: m, k => if k' = k then some v else get m k

/-- The assignment `m[k] = v`. -/
def set {α : Type} : GoMap α → String → α → GoMap α
  | [], k, v => [(k, v)]
  | (k', v') :: m, k, v => if k' = k then (k, v) :: m else (k', v') :: set m k v

/-- The builtin `delete(m, k)`. -/
def erase {α : Type} (m : GoMap α) (k : String) : GoMap α :=
  m.filter (fun e => e.1 ≠ k)

/-- Whether `k` is a key of the map (`_, ok := m[k]`). -/
def contains {α : Type} (m : GoMap α) (k : String) : Bool :=
  (m.get k).isSome

/-- The keys of the map, in iteration order. -/
def keys {α : Type} (m : GoMap α) : List String :=
  m.map Prod.fst

end GoMap

/-! ## package domain -/

/-- A dynamically typed Go value (`any`).  `composite` stands for every value
whose dynamic type is none of string, int, bool or nil. -/
inductive Value where
  | str (s : String)
  | int (n : Int)
  | bool (b : Bool)
  | nil
  | composite (repr : String)
  deriving DecidableEq, Repr

/-- The type assertion `val, ok := v.(string)`. -/
def Value.asString : Value → Option String
  | .str s => some s
  | _ => none

/-- The `uuid.UUID` identity, represented by its canonical textual form. -/
structure UUID where
  canonical : String
  deriving DecidableEq, Repr

/-- The method `uuid.UUID.String`. -/
def UUID.String (id : UUID) : String := id.canonical

/-- Go `error` values that the program distinguishes. -/
inductive Error where
  | DeadlineExceeded
  | Canceled
  | other (msg : String)
  deriving DecidableEq, Repr

/-- A `time.Duration`, in nanoseconds. -/
abbrev Duration := Int

/-- The part of `context.Context` the program depends on: whether it was
cancelled and how much time is left before its deadline (`none`: no deadline). -/
structure Context where
  cancelled : Bool
  remaining : Option Nat
  deriving DecidableEq, Repr

/-- The method `ctx.Err()`. -/
def Context.Err (ctx : Context) : Option Error :=
  if ctx.cancelled then some Error.Canceled
  else if ctx.remaining = some 0 then some Error.DeadlineExceeded
  else none

/-- The constructor `context.Background()`. -/
def Context.Background : Context := { cancelled := false, remaining := none }

/-- The derived context of `context.WithTimeout(ctx, d)`. -/
def Context.WithTimeout (ctx : Context) (d : Nat) : Context :=
  { ctx with remaining := some (match ctx.remaining with
                                | some r => min r d
                                | none => d) }

/-- The struct `domain.DataPoint`. -/
structure DataPoint where
  Value : Value
  Priority : Int
  deriving DecidableEq, Repr

/-- The pair `(map[string]DataPoint, error)` returned by `Fetch`. -/
structure FetchResult where
  data : GoMap DataPoint
  err : Option Error
  deriving DecidableEq, Repr

/-- The interface `domain.DataSource`. -/
structure DataSource where
  Name : String
  Fetch : Context → UUID → FetchResult

/-- The struct `domain.Profile`. -/
structure Profile where
  ID : UUID
  Name : String
  Email : String
  AvatarURL : String
  Fields : GoMap Value
  deriving DecidableEq, Repr

/-- The constructor `domain.NewProfile`. -/
def NewProfile (id : UUID) : Profile :=
  { ID := id, Name := "", Email := "", AvatarURL := "", Fields := [] }

/-- The interface `domain.ProfileCache` over a store state `σ`. -/
structure ProfileCache (σ : Type) where
  Get : σ → Context → String → UUID → Option Profile × Option Error
  Set : σ → Context → String → Profile → Duration → σ × Option Error
  DeleteOlderThan : σ → Context → Duration → σ × Option Error

/-! ## package usecase -/

/-- The struct `usecase.profileAggregator`; `cache = none` is the nil cache. -/
structure profileAggregator (σ : Type) where
  sources : List DataSource
  sourceTimeout : Nat
  cache : Option (ProfileCache σ)
  clientSources : GoMap (List String)
  clientFields : GoMap (List String)

/-- The constructor `usecase.NewProfileAggregator`. -/
def NewProfileAggregator {σ : Type} (timeout : Nat) (cache : Option (ProfileCache σ))
    (sources : List DataSource) : profileAggregator σ :=
  { sources := sources, sourceTimeout := timeout, cache := cache,
    clientSources := [], clientFields := [] }

/-- The method `SetClientSources`. -/
def profileAggregator.SetClientSources {σ : Type} (uc : profileAggregator σ)
    (clientID : String) (sourceNames : List String) : profileAggregator σ :=
  { uc with clientSources := uc.clientSources.set clientID sourceNames }

/-- The method `SetClientFields`. -/
def profileAggregator.SetClientFields {σ : Type} (uc : profileAggregator σ)
    (clientID : String) (fieldNames : List String) : profileAggregator σ :=
  { uc with clientFields := uc.clientFields.set clientID fieldNames }

/-- The inner loop of `getSourcesForClient`: `src` is appended once, at the
first name equal to `src.Name()` (`break`). -/
def matchesAnyName (src : DataSource) : List String → Bool
  | [] => false
  | name :: names => if src.Name = name then true else matchesAnyName src names

/-- The outer loop of `getSourcesForClient`. -/
def filterSources (names : List String) : List DataSource → List DataSource
  | [] => []
  | src :: rest =>
    if matchesAnyName src names then src :: filterSources names rest
    else filterSources names rest

/-- The method `getSourcesForClient`. -/
def profileAggregator.getSourcesForClient {σ : Type} (uc : profileAggregator σ)
    (clientID : String) : List DataSource :=
  match uc.clientSources.get clientID with
  | none => uc.sources
  | some names => filterSources names uc.sources

/-- The loop of `isFieldAllowed` over `allowedFields`. -/
def fieldListed (fieldName : String) : List String → Bool
  | [] => false
  | f :: fs => if f = fieldName then true else fieldListed fieldName fs

/-- The method `isFieldAllowed`. -/
def profileAggregator.isFieldAllowed {σ : Type} (uc : profileAggregator σ)
    (clientID : String) (fieldName : String) : Bool :=
  match uc.clientFields.get clientID with
  | none => true
  | some allowedFields => fieldListed fieldName allowedFields

/-- One iteration of the merge loop of `GetProfile`:
`if cur, ok := best[k]; !ok || dp.Priority < cur.Priority { best[k] = dp }`. -/
def mergeContribution (best : GoMap DataPoint) (k : String) (dp : DataPoint) :
    GoMap DataPoint :=
  match best.get k with
  | none => best.set k dp
  | some cur => if dp.Priority < cur.Priority then best.set k dp else best

/-- The critical section of one goroutine: `for k, dp := range data`. -/
def mergeData (best : GoMap DataPoint) (data : GoMap DataPoint) : GoMap DataPoint :=
  data.foldl (fun b e => mergeContribution b e.1 e.2) best

/-- One iteration of the partition loop of `GetProfile` (the `switch k`). -/
def partitionField {σ : Type} (uc : profileAggregator σ) (clientID : String)
    (profile : Profile) (k : String) (dp : DataPoint) : Profile :=
  if k = "name" then
    match dp.Value.asString with
    | some val => { profile with Name := val }
    | none => profile
  else if k = "email" then
    match dp.Value.asString with
    | some val => { profile with Email := val }
    | none => profile
  else if k = "avatar_url" then
    match dp.Value.asString with
    | some val => { profile with AvatarURL := val }
    | none => profile
  else if uc.isFieldAllowed clientID k then
    { profile with Fields := profile.Fields.set k dp.Value }
  else profile

/-- The partition loop of `GetProfile`: `profile := NewProfile(id)` followed by
`for k, dp := range best`. -/
def buildProfile {σ : Type} (uc : profileAggregator σ) (clientID : String) (id : UUID)
    (best : GoMap DataPoint) : Profile :=
  best.foldl (fun p e => partitionField uc clientID p e.1 e.2) (NewProfile id)

/-- The order in which the goroutines whose `Fetch` succeeded take the mutex:
a rearrangement of their contributions (listed in launch order). -/
abbrev Schedule := List (GoMap DataPoint) → List (GoMap DataPoint)

/-- A schedule runs every successful goroutine exactly once. -/
def Schedule.Fair (sched : Schedule) : Prop :=
  ∀ l, (sched l).Perm l

/-- The goroutines are launched for every permitted source; each one calls
`Fetch` under `context.WithTimeout(ctx, uc.sourceTimeout)`. -/
def fetchAll {σ : Type} (uc : profileAggregator σ) (ctx : Context) (clientID : String)
    (id : UUID) : List FetchResult :=
  (uc.getSourcesForClient clientID).map
    (fun s => s.Fetch (ctx.WithTimeout uc.sourceTimeout) id)

/-- The contributions of the goroutines that reach `mu.Lock()`: those whose
`Fetch` returned a nil error. -/
def arrivals (results : List FetchResult) : List (GoMap DataPoint) :=
  results.filterMap (fun r => match r.err with
                              | none => some r.data
                              | some _ => none)

/-- The `best` map after `wg.Wait()`. -/
def mergedBest {σ : Type} (uc : profileAggregator σ) (ctx : Context) (clientID : String)
    (id : UUID) (sched : Schedule) : GoMap DataPoint :=
  (sched (arrivals (fetchAll uc ctx clientID id))).foldl mergeData []

/-- What one call of `GetProfile` yields: the returned pair, the store state
of the cache afterwards, and the names of the providers whose `Fetch` ran. -/
structure GetProfileResult (σ : Type) where
  profile : Option Profile
  err : Option Error
  store : σ
  fetched : List String

/-- The fan-out, merge, partition and write-back of `GetProfile` (from
`best := make(...)` to the end). -/
def aggregate {σ : Type} (uc : profileAggregator σ) (st : σ) (ctx : Context)
    (clientID : String) (id : UUID) (sched : Schedule) : GetProfileResult σ :=
  let profile := buildProfile uc clientID id (mergedBest uc ctx clientID id sched)
  let fetched := (uc.getSourcesForClient clientID).map DataSource.Name
  match uc.cache with
  | none => { profile := some profile, err := none, store := st, fetched := fetched }
  | some c =>
    { profile := some profile, err := none,
      store := (c.Set st ctx clientID profile 0).1, fetched := fetched }

/-- The cache block that opens `GetProfile`: the lookup runs under
`context.WithTimeout(ctx, 50*time.Millisecond)` and yields the cached profile
when `err == nil && cached != nil`. -/
def cacheLookup {σ : Type} (uc : profileAggregator σ) (st : σ) (ctx : Context)
    (clientID : String) (id : UUID) : Option Profile :=
  match uc.cache with
  | none => none
  | some c =>
    match c.Get st (ctx.WithTimeout 50000000) clientID id with
    | (some cached, none) => some cached
    | _ => none

/-- The method `GetProfile`. -/
def profileAggregator.GetProfile {σ : Type} (uc : profileAggregator σ) (st : σ)
    (ctx : Context) (clientID : String) (id : UUID) (sched : Schedule) :
    GetProfileResult σ :=
  match cacheLookup uc st ctx clientID id with
  | some cached => { profile := some cached, err := none, store := st, fetched := [] }
  | none => aggregate uc st ctx clientID id sched

/-! ## package cache -/

/-- A byte slice. -/
abbrev Bytes := List UInt8

/-- The library functions the Redis cache calls: `json.Marshal`,
`json.Unmarshal` (into an existing profile), and the gzip writer and reader. -/
structure Codec where
  marshal : Profile → Except Error Bytes
  unmarshal : Bytes → Profile → Except Error Profile
  gzipWrite : Bytes → Except Error Bytes
  gzipRead : Bytes → Except Error Bytes

/-- The commands that `redisCache` sends to the server. -/
inductive Command where
  | GET
  | SET
  | ZADD
  | ZRANGEBYSCORE
  | DEL
  | ZREM
  deriving DecidableEq, Repr

/-- A string key of the server: its value and the instant (nanoseconds since
the epoch) from which it is expired, `none` when it never expires. -/
structure Entry where
  value : Bytes
  expireAt : Option Int
  deriving DecidableEq, Repr

/-- The Redis server behind `redisCache.client`: the string keys, the sorted
set `profiles_timestamps` (member to score), and the commands that currently
fail with a server or network error.  Scores are the Unix seconds of clock
readings, far below `2^53`, where the conversion to `float64` is exact. -/
structure Redis where
  kv : GoMap Entry
  timestamps : GoMap Int
  failing : List Command
  deriving DecidableEq, Repr

/-- What the client's `Set(ctx, key, value, expiration)` makes of its
`expiration` argument: the expiry instant of the key after the write, from the
expiry it had before (`none`: no live key or no expiry), the server time and
the `ttl` passed. -/
abbrev Expiry := Option Int → Int → Duration → Option Int

/-- The error of one command sent under `ctx`: the context's error when the
context is done, a server error when the command is failing, else nil. -/
def Redis.send (r : Redis) (ctx : Context) (cmd : Command) : Option Error :=
  match ctx.Err with
  | some e => some e
  | none => if cmd ∈ r.failing then some (Error.other "redis") else none

/-- The entry of a key at the instant `now`: an expired key is gone. -/
def Redis.live (r : Redis) (now : Int) (key : String) : Option Entry :=
  match r.kv.get key with
  | none => none
  | some e =>
    match e.expireAt with
    | none => some e
    | some t => if t ≤ now then none else some e

/-- The negation `-d` of an `int64`, which wraps at `math.MinInt64`. -/
def negInt64 (d : Int) : Int :=
  (-d + 9223372036854775808) % 18446744073709551616 - 9223372036854775808

/-- The cache key `fmt.Sprintf("profile:%s:%s", clientID, id.String())`. -/
def redisKey (clientID : String) (id : UUID) : String :=
  "profile:" ++ clientID ++ ":" ++ id.String

/-- The function `compress`. -/
def compress (codec : Codec) (data : Bytes) : Except Error Bytes :=
  codec.gzipWrite data

/-- The function `decompress`; `none` is the nil slice. -/
def decompress (codec : Codec) (data : Bytes) : Except Error (Option Bytes) :=
  if data.length = 0 then .ok none
  else match codec.gzipRead data with
    | .error e => .error e
    | .ok out => .ok (some out)

/-- The method `redisCache.Get`, run at the instant `now`. -/
def redisCache.Get (codec : Codec) (r : Redis) (now : Int) (ctx : Context)
    (clientID : String) (id : UUID) : Option Profile × Option Error :=
  match r.send ctx Command.GET with
  | some e => (none, some e)
  | none =>
    match r.live now (redisKey clientID id) with
    | none => (none, none)
    | some entry =>
      match decompress codec entry.value with
      | .error _ => (none, some (Error.other "failed to decompress"))
      | .ok none => (none, none)
      | .ok (some decompressed) =>
        match codec.unmarshal decompressed (NewProfile id) with
        | .error e => (none, some e)
        | .ok profile => (some profile, none)

/-- The method `redisCache.Set`; `now` is `time.Now()` in nanoseconds since
the epoch, and the score written is `time.Now().Unix()`.  When `SET` succeeds
and `ZADD` fails the value stays written and the error is returned. -/
def redisCache.Set (codec : Codec) (expiry : Expiry) (r : Redis) (now : Int) (ctx : Context)
    (clientID : String) (profile : Profile) (ttl : Duration) : Redis × Option Error :=
  let key := redisKey clientID profile.ID
  match codec.marshal profile with
  | .error e => (r, some e)
  | .ok val =>
    match compress codec val with
    | .error _ => (r, some (Error.other "failed to compress"))
    | .ok compressed =>
      match r.send ctx Command.SET with
      | some e => (r, some e)
      | none =>
        let old := (r.live now key).bind Entry.expireAt
        let r1 : Redis :=
          { r with kv := r.kv.set key { value := compressed, expireAt := expiry old now ttl } }
        match r.send ctx Command.ZADD with
        | some e => (r1, some e)
        | none => ({ r1 with timestamps := r.timestamps.set key (now / 1000000000) }, none)

/-- The command `ZRANGEBYSCORE profiles_timestamps -inf cutoff`: the members
whose score is at most `cutoff`. -/
def zRangeByScore (timestamps : GoMap Int) (cutoff : Int) : List String :=
  timestamps.keys.filter (fun k => match timestamps.get k with
                                   | some score => score ≤ cutoff
                                   | none => false)

/-- The commands `DEL keys...` and `ZREM profiles_timestamps keys...`. -/
def delKeys {α : Type} (m : GoMap α) (keys : List String) : GoMap α :=
  m.filter (fun e => e.1 ∉ keys)

/-- The method `redisCache.DeleteOlderThan`; `now` is `time.Now()` and
`olderThan` a `time.Duration`, both in nanoseconds, and the cutoff is
`time.Now().Add(-olderThan).Unix()`.  When `DEL` succeeds and `ZREM` fails the
keys stay deleted and the error is returned. -/
def redisCache.DeleteOlderThan (r : Redis) (now : Int) (ctx : Context)
    (olderThan : Duration) : Redis × Option Error :=
  let cutoff := (now + negInt64 olderThan) / 1000000000
  match r.send ctx Command.ZRANGEBYSCORE with
  | some e => (r, some e)
  | none =>
    let keys := zRangeByScore r.timestamps cutoff
    if keys.length = 0 then (r, none)
    else
      match r.send ctx Command.DEL with
      | some e => (r, some e)
      | none =>
        let r1 : Redis := { r with kv := delKeys r.kv keys }
        match r.send ctx Command.ZREM with
        | some e => (r1, some e)
        | none => ({ r1 with timestamps := delKeys r.timestamps keys }, none)

/-- An in-memory `ProfileCache` in the manner of the test double `mockCache`:
a map from `clientID + id.String()` to the stored profile. -/
def memCache : ProfileCache (GoMap Profile) where
  Get := fun st _ clientID id => (st.get (clientID ++ id.String), none)
  Set := fun st _ clientID profile _ => (st.set (clientID ++ profile.ID.String) profile, none)
  DeleteOlderThan := fun st _ _ => (st, none)

/-- A codec for profiles that carry nothing but their identity: the encoding
is one byte behind a one-byte header, and decoding returns the profile it is
given (`NewProfile(id)` in `Get`). -/
def idCodec : Codec where
  marshal := fun _ => .ok [1]
  unmarshal := fun _ p => .ok p
  gzipWrite := fun b => .ok (31 :: b)
  gzipRead := fun b => .ok b.tail

/-! ## package httpapi -/

/-- The parts of `*http.Request` that `ProfileHandler` reads. -/
structure Request where
  Path : String
  QueryID : String
  ClientIDHeader : String
  ctx : Context

/-- What `writeJSON` is called with, and the cache store afterwards. -/
structure Response (σ : Type) where
  status : Nat
  body : GoMap Value
  store : σ

/-- The first loop of `splitPath`: drop the leading slashes. -/
def dropLeadingSlashes : List Char → List Char
  | [] => []
  | c :: cs => if c = '/' then dropLeadingSlashes cs else c :: cs

/-- The second loop of `splitPath`, with the segment being read in `cur`. -/
def splitSegments : List Char → List Char → List String → List String
  | [], cur, parts => if cur ≠ [] then parts ++ [String.mk cur] else parts
  | c :: cs, cur, parts =>
    if c = '/' then
      if cur ≠ [] then splitSegments cs [] (parts ++ [String.mk cur])
      else splitSegments cs [] parts
    else splitSegments cs (cur ++ [c]) parts

/-- The function `splitPath`, on paths of ASCII characters (the Go code walks
the bytes of the path). -/
def splitPath (p : String) : List String :=
  let p := dropLeadingSlashes p.data
  if p = [] then [] else splitSegments p [] []

/-- The response object of `ProfileHandler` for a profile: lines
`resp := map[string]any{...}` to the `range profile.Fields` loop. -/
def flatten (profile : Profile) : GoMap Value :=
  let resp : GoMap Value := [("id", Value.str profile.ID.String)]
  let resp := if profile.Email ≠ "" then resp.set "email" (Value.str profile.Email) else resp
  let resp := if profile.Name ≠ "" then resp.set "name" (Value.str profile.Name) else resp
  let resp := if profile.AvatarURL ≠ "" then
    resp.set "avatar_url" (Value.str profile.AvatarURL) else resp
  profile.Fields.foldl (fun m e => m.set e.1 e.2) resp

/-- The identity string `ProfileHandler` extracts from the request. -/
def requestID (r : Request) : String :=
  let idStr :=
    if r.Path ≠ "/profile" then
      match splitPath r.Path with
      | [p0, p1] => if p0 = "profile" ∧ p1 ≠ "" then p1 else ""
      | _ => ""
    else ""
  if idStr = "" then r.QueryID else idStr

/-- The handler returned by `ProfileHandler(uc)`; `parse` is `uuid.Parse`.  A nil
profile with a nil error, which `GetProfile` never returns, is answered like an
error. -/
def ProfileHandler {σ : Type} (parse : String → Option UUID) (uc : profileAggregator σ)
    (st : σ) (r : Request) (sched : Schedule) : Response σ :=
  let idStr := requestID r
  if idStr = "" then
    { status := 400, body := [("error", Value.str "missing id")], store := st }
  else
    match parse idStr with
    | none => { status := 400, body := [("error", Value.str "invalid uuid")], store := st }
    | some id =>
      let clientID := if r.ClientIDHeader = "" then "default" else r.ClientIDHeader
      let res := uc.GetProfile st (r.ctx.WithTimeout 500000000) clientID id sched
      match res.err, res.profile with
      | none, some profile => { status := 200, body := flatten profile, store := res.store }
      | _, _ =>
        { status := 500, body := [("error", Value.str "internal error")], store := res.store }

/-! ## package sources and the test fixtures -/

/-- The shape shared by `Source1` to `Source4` and the test's `slowSource`:
`select` between `time.After(delay)` and `ctx.Done()`. -/
def timedSource (name : String) (delay : Nat) (data : GoMap DataPoint) : DataSource where
  Name := name
  Fetch := fun ctx _ =>
    if ctx.cancelled then { data := [], err := some Error.Canceled }
    else match ctx.remaining with
      | none => { data := data, err := none }
      | some r =>
        if r < delay then { data := [], err := some Error.DeadlineExceeded }
        else { data := data, err := none }

/-- The provider `sources.Source1`. -/
def Source1 : DataSource :=
  timedSource "source1" 30000000
    [("email", ⟨.str "test@test.com", 0⟩), ("name", ⟨.str "Bar Dor", 2⟩)]

/-- The provider `sources.Source2`. -/
def Source2 : DataSource :=
  timedSource "source2" 20000000 [("name", ⟨.str "John Foo", 0⟩)]

/-- The provider `sources.Source3`. -/
def Source3 : DataSource :=
  timedSource "source3" 10000000
    [("name", ⟨.str "John Bar", 1⟩), ("avatar_url", ⟨.str "https://i.pravatar.cc/300", 0⟩)]

/-- The provider `sources.Source4`. -/
def Source4 : DataSource :=
  timedSource "source4" 15000000 [("unknown", ⟨.str "alien", 0⟩)]

/-- The test provider `multiFieldSource`. -/
def multiFieldSource (name : String) : DataSource where
  Name := name
  Fetch := fun _ _ =>
    { data := [("name", ⟨.str "Common Name", 0⟩), ("extra_one", ⟨.str "Extra 1", 0⟩),
               ("extra_two", ⟨.str "Extra 2", 0⟩), ("avatar_url", ⟨.str "http://avatar.com", 0⟩)],
      err := none }

/-- The aggregator of `TestProfileFieldFiltering` after
`uc.SetClientFields("client1", []string{"extra_one"})`. -/
def filteringAggregator : profileAggregator Unit :=
  (NewProfileAggregator 200000000 none [multiFieldSource "src1"]).SetClientFields
    "client1" ["extra_one"]

/-- The aggregator of `TestProfileCaching`, over the in-memory cache. -/
def cachingAggregator : profileAggregator (GoMap Profile) :=
  NewProfileAggregator 200000000 (some memCache) [multiFieldSource "src1"]

/-- The aggregator that `cmd/server` builds, without a cache. -/
def serverAggregator : profileAggregator Unit :=
  NewProfileAggregator 200000000 none [Source1, Source2, Source3, Source4]

/-! ## Specification vocabulary -/

/-- Some source of `srcs` fetched without error under `ctx` and contributed the
value `v` for the field `k`. -/
def Contributed (srcs : List DataSource) (ctx : Context) (id : UUID) (k : String)
    (v : Value) : Prop :=
  ∃ s ∈ srcs, (s.Fetch ctx id).err = none ∧
    ∃ dp, (k, dp) ∈ (s.Fetch ctx id).data ∧ dp.Value = v

/-- Every datum of the profile was contributed by a source of `srcs`. -/
def OnlyFrom (srcs : List DataSource) (ctx : Context) (id : UUID) (p : Profile) : Prop :=
  (∀ k v, p.Fields.get k = some v → Contributed srcs ctx id k v) ∧
  (p.Name ≠ "" → Contributed srcs ctx id "name" (.str p.Name)) ∧
  (p.Email ≠ "" → Contributed srcs ctx id "email" (.str p.Email)) ∧
  (p.AvatarURL ≠ "" → Contributed srcs ctx id "avatar_url" (.str p.AvatarURL))

/-- A cache whose `Get` returns what `Set` last stored for the key, and for
which a hit does not depend on the context of the lookup. -/
def ProfileCache.Reliable {σ : Type} (c : ProfileCache σ) : Prop :=
  (∀ st ctx ctx' clientID p ttl,
    c.Get (c.Set st ctx clientID p ttl).1 ctx' clientID p.ID = (some p, none)) ∧
  (∀ st ctx ctx' clientID id p,
    c.Get st ctx clientID id = (some p, none) → c.Get st ctx' clientID id = (some p, none))

/-- The tenant's field allow-list admits `k`: no list is configured, or `k` is on it. -/
def FieldPermitted {σ : Type} (uc : profileAggregator σ) (clientID : String)
    (k : String) : Prop :=
  uc.clientFields.get clientID = none ∨
    ∃ names, uc.clientFields.get clientID = some names ∧ k ∈ names

/-- The holder that the specification names for the field `k` after a run of
contributions applied in arrival order: the earliest-applied contribution
among those made to `k` whose priority is the minimum for that field. -/
def earliestMinimum (k : String) (run : GoMap DataPoint) : Option DataPoint :=
  (run.find? (fun e => decide (e.1 = k) &&
    run.all (fun e' => decide (e'.1 = k → e.2.Priority ≤ e'.2.Priority)))).map Prod.snd

end ProfileAggregator

namespace ProfileAggregator

/-! ## Lemmas on Go maps -/

theorem GoMap.get_set {α : Type} (m : GoMap α) (k k' : String) (v : α) :
    (m.set k v).get k' = if k = k' then some v else m.get k' := by
  induction m with
  | nil => simp [GoMap.set, GoMap.get]
  | cons e m ih =>
    obtain ⟨a, b⟩ := e
    by_cases h : a = k
    · subst h
      by_cases h' : a = k' <;> simp [GoMap.set, GoMap.get, h']
    · by_cases h' : a = k'
      · subst h'
        simp [GoMap.set, GoMap.get, h, Ne.symm h]
      · simp [GoMap.set, GoMap.get, h, h', ih]

theorem GoMap.get_set_self {α : Type} (m : GoMap α) (k : String) (v : α) :
    (m.set k v).get k = some v := by
  simp [GoMap.get_set]

theorem GoMap.get_set_other {α : Type} (m : GoMap α) (k k' : String) (v : α)
    (h : k ≠ k') : (m.set k v).get k' = m.get k' := by
  simp [GoMap.get_set, h]

theorem GoMap.mem_set {α : Type} (m : GoMap α) (k : String) (v : α) (e : String × α)
    (h : e ∈ m.set k v) : e = (k, v) ∨ e ∈ m := by
  induction m with
  | nil => simpa [GoMap.set] using h
  | cons x m ih =>
    obtain ⟨a, b⟩ := x
    by_cases hk : a = k
    · simp only [GoMap.set, hk, if_true, List.mem_cons] at h
      rcases h with h | h
      · exact Or.inl h
      · exact Or.inr (List.mem_cons_of_mem _ h)
    · simp only [GoMap.set, hk, if_false, List.mem_cons] at h
      rcases h with h | h
      · exact Or.inr (by simp [h])
      · rcases ih h with h1 | h1
        · exact Or.inl h1
        · exact Or.inr (List.mem_cons_of_mem _ h1)

theorem GoMap.get_eq_none_iff {α : Type} (m : GoMap α) (k : String) :
    m.get k = none ↔ k ∉ m.keys := by
  induction m with
  | nil => simp [GoMap.get, GoMap.keys]
  | cons e m ih =>
    obtain ⟨a, b⟩ := e
    by_cases h : a = k
    · simp [GoMap.get, GoMap.keys, h]
    · simp only [GoMap.get, h, if_false, ih]
      simp [GoMap.keys, Ne.symm h]

theorem GoMap.keys_set {α : Type} (m : GoMap α) (k : String) (v : α) :
    (m.set k v).keys = if k ∈ m.keys then m.keys else m.keys ++ [k] := by
  induction m with
  | nil => simp [GoMap.set, GoMap.keys]
  | cons e m ih =>
    obtain ⟨a, b⟩ := e
    by_cases h : a = k
    · simp [GoMap.set, GoMap.keys, h]
    · have ih' : List.map Prod.fst (GoMap.set m k v) =
          if k ∈ List.map Prod.fst m then List.map Prod.fst m
          else List.map Prod.fst m ++ [k] := ih
      simp only [GoMap.set, h, if_false, GoMap.keys, List.map_cons, List.mem_cons,
        Ne.symm h, false_or, ih']
      split <;> simp

theorem GoMap.nodup_set {α : Type} (m : GoMap α) (k : String) (v : α)
    (h : m.keys.Nodup) : (m.set k v).keys.Nodup := by
  rw [GoMap.keys_set]
  split
  · exact h
  · rename_i hk
    rw [List.nodup_append]
    refine ⟨h, List.nodup_singleton k, ?_⟩
    intro x hx hx'
    simp only [List.mem_singleton] at hx'
    subst hx'
    exact hk hx

theorem GoMap.mem_of_get {α : Type} (m : GoMap α) (k : String) (v : α)
    (h : m.get k = some v) : (k, v) ∈ m := by
  induction m with
  | nil => simp [GoMap.get] at h
  | cons e m ih =>
    obtain ⟨a, b⟩ := e
    by_cases hk : a = k
    · simp only [GoMap.get, hk, if_true, Option.some.injEq] at h
      simp [hk, h]
    · simp only [GoMap.get, hk, if_false] at h
      exact List.mem_cons_of_mem _ (ih h)

theorem GoMap.get_of_mem {α : Type} (m : GoMap α) (k : String) (v : α)
    (hn : m.keys.Nodup) (h : (k, v) ∈ m) : m.get k = some v := by
  induction m with
  | nil => simp at h
  | cons e m ih =>
    obtain ⟨a, b⟩ := e
    simp only [GoMap.keys, List.map_cons, List.nodup_cons] at hn
    simp only [List.mem_cons, Prod.mk.injEq] at h
    rcases h with ⟨h1, h2⟩ | h
    · simp [GoMap.get, h1, h2]
    · have hne : a ≠ k := by
        intro hak
        apply hn.1
        rw [hak]
        exact List.mem_map.mpr ⟨(k, v), h, rfl⟩
      simp only [GoMap.get, hne, if_false]
      exact ih hn.2 h

theorem GoMap.contains_iff {α : Type} (m : GoMap α) (k : String) :
    m.contains k = true ↔ k ∈ m.keys := by
  unfold GoMap.contains
  rw [Option.isSome_iff_ne_none, Ne, GoMap.get_eq_none_iff, not_not]

/-! ## The merge loop -/

theorem mergeContribution_get_other (best : GoMap DataPoint) (k k' : String)
    (dp : DataPoint) (h : k ≠ k') : (mergeContribution best k dp).get k' = best.get k' := by
  unfold mergeContribution
  split
  · exact GoMap.get_set_other best k k' dp h
  · split
    · exact GoMap.get_set_other best k k' dp h
    · rfl

theorem mergeContribution_get_self (best : GoMap DataPoint) (k : String) (dp : DataPoint) :
    (mergeContribution best k dp).get k =
      match best.get k with
      | none => some dp
      | some cur => if dp.Priority < cur.Priority then some dp else some cur := by
  unfold mergeContribution
  split
  · rename_i h
    simp [h, GoMap.get_set_self]
  · rename_i cur h
    split
    · simp [h, GoMap.get_set_self, *]
    · simp [h, *]

theorem mergeData_nil (best : GoMap DataPoint) : mergeData best [] = best := rfl

theorem mergeData_cons (best : GoMap DataPoint) (e : String × DataPoint)
    (data : GoMap DataPoint) :
    mergeData best (e :: data) = mergeData (mergeContribution best e.1 e.2) data := rfl

theorem mergeData_append (best : GoMap DataPoint) (d1 d2 : GoMap DataPoint) :
    mergeData best (d1 ++ d2) = mergeData (mergeData best d1) d2 := by
  simp [mergeData, List.foldl_append]

theorem mergeData_get_other (best : GoMap DataPoint) (data : GoMap DataPoint) (k : String)
    (h : ∀ e ∈ data, e.1 ≠ k) : (mergeData best data).get k = best.get k := by
  induction data generalizing best with
  | nil => rfl
  | cons e data ih =>
    rw [mergeData_cons, ih _ (fun x hx => h x (List.mem_cons_of_mem _ hx)),
      mergeContribution_get_other _ _ _ _ (h e (List.mem_cons_self _ _))]

theorem mergeContribution_keys_nodup (best : GoMap DataPoint) (k : String) (dp : DataPoint)
    (h : best.keys.Nodup) : (mergeContribution best k dp).keys.Nodup := by
  unfold mergeContribution
  split
  · exact GoMap.nodup_set _ _ _ h
  · split
    · exact GoMap.nodup_set _ _ _ h
    · exact h

theorem mergeData_keys_nodup (best : GoMap DataPoint) (data : GoMap DataPoint)
    (h : best.keys.Nodup) : (mergeData best data).keys.Nodup := by
  induction data generalizing best with
  | nil => exact h
  | cons e data ih =>
    rw [mergeData_cons]
    exact ih _ (mergeContribution_keys_nodup _ _ _ h)

theorem mergeContribution_mem (best : GoMap DataPoint) (k : String) (dp : DataPoint)
    (e : String × DataPoint) (h : e ∈ mergeContribution best k dp) :
    e = (k, dp) ∨ e ∈ best := by
  unfold mergeContribution at h
  split at h
  · exact GoMap.mem_set _ _ _ _ h
  · split at h
    · exact GoMap.mem_set _ _ _ _ h
    · exact Or.inr h

theorem mergeData_mem (best : GoMap DataPoint) (data : GoMap DataPoint)
    (e : String × DataPoint) (h : e ∈ mergeData best data) : e ∈ data ∨ e ∈ best := by
  induction data generalizing best with
  | nil => exact Or.inr h
  | cons x data ih =>
    rw [mergeData_cons] at h
    rcases ih _ h with h1 | h1
    · exact Or.inl (List.mem_cons_of_mem _ h1)
    · rcases mergeContribution_mem _ _ _ _ h1 with h2 | h2
      · exact Or.inl (by rw [h2]; exact List.mem_cons_self _ _)
      · exact Or.inr h2

theorem foldl_mergeData_keys_nodup (ls : List (GoMap DataPoint)) (best : GoMap DataPoint)
    (h : best.keys.Nodup) : (ls.foldl mergeData best).keys.Nodup := by
  induction ls generalizing best with
  | nil => exact h
  | cons d ls ih => exact ih _ (mergeData_keys_nodup _ _ h)

theorem foldl_mergeData_mem (ls : List (GoMap DataPoint)) (best : GoMap DataPoint)
    (e : String × DataPoint) (h : e ∈ ls.foldl mergeData best) :
    (∃ d ∈ ls, e ∈ d) ∨ e ∈ best := by
  induction ls generalizing best with
  | nil => exact Or.inr h
  | cons d ls ih =>
    rcases ih _ h with ⟨d', hd', he⟩ | h1
    · exact Or.inl ⟨d', List.mem_cons_of_mem _ hd', he⟩
    · rcases mergeData_mem _ _ _ h1 with h2 | h2
      · exact Or.inl ⟨d, List.mem_cons_self _ _, h2⟩
      · exact Or.inr h2

theorem foldl_mergeData_eq_flatten (ls : List (GoMap DataPoint)) (best : GoMap DataPoint) :
    ls.foldl mergeData best = mergeData best ls.flatten := by
  induction ls generalizing best with
  | nil => rfl
  | cons d ls ih => rw [List.foldl_cons, ih, List.flatten_cons, mergeData_append]

theorem mergedBest_keys_nodup {σ : Type} (uc : profileAggregator σ) (ctx : Context)
    (clientID : String) (id : UUID) (sched : Schedule) :
    (mergedBest uc ctx clientID id sched).keys.Nodup :=
  foldl_mergeData_keys_nodup _ _ List.nodup_nil

/-- The holder of `k` after a run of contributions in which `first` and then
`second` are the only ones made to `k`, starting from a map without `k`. -/
theorem mergeData_two_contributions (best pre mid post : GoMap DataPoint) (k : String)
    (first second : DataPoint) (hbest : best.get k = none)
    (hpre : ∀ e ∈ pre, e.1 ≠ k) (hmid : ∀ e ∈ mid, e.1 ≠ k) (hpost : ∀ e ∈ post, e.1 ≠ k) :
    (mergeData best (pre ++ (k, first) :: (mid ++ (k, second) :: post))).get k =
      if second.Priority < first.Priority then some second else some first := by
  rw [mergeData_append, mergeData_cons, mergeData_append, mergeData_cons,
    mergeData_get_other _ _ _ hpost, mergeContribution_get_self,
    mergeData_get_other _ _ _ hmid, mergeContribution_get_self,
    mergeData_get_other _ _ _ hpre, hbest]

theorem mergeContribution_holder_le (best : GoMap DataPoint) (k k' : String)
    (dp : DataPoint) (p : Int)
    (h : ∃ cur, best.get k = some cur ∧ cur.Priority ≤ p) :
    ∃ cur, (mergeContribution best k' dp).get k = some cur ∧ cur.Priority ≤ p := by
  obtain ⟨cur, hget, hle⟩ := h
  by_cases hk : k' = k
  · subst hk
    rw [mergeContribution_get_self, hget]
    by_cases hlt : dp.Priority < cur.Priority
    · exact ⟨dp, by simp [hlt], by omega⟩
    · exact ⟨cur, by simp [hlt], hle⟩
  · rw [mergeContribution_get_other _ _ _ _ hk]
    exact ⟨cur, hget, hle⟩

theorem mergeData_holder_le (best data : GoMap DataPoint) (k : String) (p : Int)
    (h : ∃ cur, best.get k = some cur ∧ cur.Priority ≤ p) :
    ∃ cur, (mergeData best data).get k = some cur ∧ cur.Priority ≤ p := by
  induction data generalizing best with
  | nil => exact h
  | cons e data ih =>
    rw [mergeData_cons]
    exact ih _ (mergeContribution_holder_le best k e.1 e.2 p h)

theorem mergeContribution_holder_self (best : GoMap DataPoint) (k : String)
    (dp : DataPoint) :
    ∃ cur, (mergeContribution best k dp).get k = some cur ∧ cur.Priority ≤ dp.Priority := by
  rw [mergeContribution_get_self]
  cases hget : best.get k with
  | none => exact ⟨dp, rfl, le_refl _⟩
  | some cur =>
    by_cases hlt : dp.Priority < cur.Priority
    · exact ⟨dp, by simp [hlt], le_refl _⟩
    · exact ⟨cur, by simp [hlt], by omega⟩

theorem mergeData_holder_of_mem (best data : GoMap DataPoint) (k : String) (dp : DataPoint)
    (h : (k, dp) ∈ data) :
    ∃ cur, (mergeData best data).get k = some cur ∧ cur.Priority ≤ dp.Priority := by
  induction data generalizing best with
  | nil => simp at h
  | cons e data ih =>
    rw [mergeData_cons]
    rcases List.mem_cons.mp h with h1 | h1
    · subst h1
      exact mergeData_holder_le _ data k dp.Priority (mergeContribution_holder_self best k dp)
    · exact ih _ h1

/-! ## C1: merge priority -/

/-- C1. Merge priority: when two contributions to the field `k` with priorities
`p1 < p2` are applied to a `best` map that has no holder for `k` (as the map
of `GetProfile` starts out), in either order and interleaved in any way with
contributions to other fields, the holder of `k` afterwards is the contribution
with priority `p1`.  Among any further contributions to `k`, from any starting
map, the holder after the `p1` contribution has been applied has a priority of
at most `p1`, below `p2`. -/
theorem merge_priority (best pre mid post : GoMap DataPoint) (k : String)
    (dp1 dp2 : DataPoint) (hlt : dp1.Priority < dp2.Priority)
    (hbest : best.get k = none)
    (hpre : ∀ e ∈ pre, e.1 ≠ k) (hmid : ∀ e ∈ mid, e.1 ≠ k) (hpost : ∀ e ∈ post, e.1 ≠ k) :
    (mergeData best (pre ++ (k, dp1) :: (mid ++ (k, dp2) :: post))).get k = some dp1 ∧
    (mergeData best (pre ++ (k, dp2) :: (mid ++ (k, dp1) :: post))).get k = some dp1 ∧
    (∀ start run : GoMap DataPoint, (k, dp1) ∈ run →
      ∃ holder, (mergeData start run).get k = some holder ∧
        holder.Priority ≤ dp1.Priority ∧ holder.Priority < dp2.Priority) := by
  refine ⟨?_, ?_, ?_⟩
  · rw [mergeData_two_contributions best pre mid post k dp1 dp2 hbest hpre hmid hpost,
      if_neg (by omega)]
  · rw [mergeData_two_contributions best pre mid post k dp2 dp1 hbest hpre hmid hpost,
      if_pos hlt]
  · intro start run hmem
    obtain ⟨holder, hget, hle⟩ := mergeData_holder_of_mem start run k dp1 hmem
    exact ⟨holder, hget, hle, by omega⟩

/-- C1 at the contributions of `Source1` and `Source2` to `name`. -/
theorem merge_priority_witness :
    (mergeData [] ([("email", ⟨.str "test@test.com", 0⟩)] ++
        ("name", ⟨.str "John Foo", 0⟩) :: ([] ++ ("name", ⟨.str "Bar Dor", 2⟩) :: []))).get
        "name" = some ⟨.str "John Foo", 0⟩ ∧
    (mergeData [] ([("email", ⟨.str "test@test.com", 0⟩)] ++
        ("name", ⟨.str "Bar Dor", 2⟩) :: ([] ++ ("name", ⟨.str "John Foo", 0⟩) :: []))).get
        "name" = some ⟨.str "John Foo", 0⟩ :=
  ⟨(merge_priority [] [("email", ⟨.str "test@test.com", 0⟩)] [] [] "name"
    ⟨.str "John Foo", 0⟩ ⟨.str "Bar Dor", 2⟩ (by decide) rfl (by decide) (by simp) (by simp)).1,
   (merge_priority [] [("email", ⟨.str "test@test.com", 0⟩)] [] [] "name"
    ⟨.str "John Foo", 0⟩ ⟨.str "Bar Dor", 2⟩ (by decide) rfl (by decide) (by simp)
    (by simp)).2.1⟩

/-! ## The partition loop -/

/-- The fold of the partition loop from an arbitrary starting profile. -/
theorem buildProfile_eq {σ : Type} (uc : profileAggregator σ) (clientID : String) (id : UUID)
    (best : GoMap DataPoint) :
    buildProfile uc clientID id best =
      best.foldl (fun p e => partitionField uc clientID p e.1 e.2) (NewProfile id) := rfl

theorem fieldListed_iff (fieldName : String) (names : List String) :
    fieldListed fieldName names = true ↔ fieldName ∈ names := by
  induction names with
  | nil => simp [fieldListed]
  | cons f fs ih =>
    by_cases h : f = fieldName
    · simp [fieldListed, h]
    · simp [fieldListed, h, ih, Ne.symm h]

theorem isFieldAllowed_iff {σ : Type} (uc : profileAggregator σ) (clientID k : String) :
    uc.isFieldAllowed clientID k = true ↔ FieldPermitted uc clientID k := by
  unfold profileAggregator.isFieldAllowed FieldPermitted
  split
  · rename_i h
    simp [h]
  · rename_i names h
    simp [h, fieldListed_iff]

/-- Whether the partition loop stores the field `k` in `Fields`. -/
theorem partitionField_Fields_get {σ : Type} (uc : profileAggregator σ) (clientID : String)
    (p : Profile) (a k : String) (dp : DataPoint) :
    (partitionField uc clientID p a dp).Fields.get k =
      if a = k ∧ a ≠ "name" ∧ a ≠ "email" ∧ a ≠ "avatar_url" ∧
          uc.isFieldAllowed clientID a = true
      then some dp.Value else p.Fields.get k := by
  unfold partitionField
  by_cases h1 : a = "name"
  · subst h1
    cases hv : dp.Value.asString <;> simp
  · by_cases h2 : a = "email"
    · subst h2
      cases hv : dp.Value.asString <;> simp
    · by_cases h3 : a = "avatar_url"
      · subst h3
        cases hv : dp.Value.asString <;> simp
      · by_cases h4 : uc.isFieldAllowed clientID a = true
        · by_cases hk : a = k
          · subst hk
            simp [h1, h2, h3, h4, GoMap.get_set_self]
          · simp [h1, h2, h3, h4, hk, GoMap.get_set_other]
        · simp [h1, h2, h3, h4]

theorem foldPartition_Fields_get_of_not_mem {σ : Type} (uc : profileAggregator σ)
    (clientID : String) (l : GoMap DataPoint) (p : Profile) (k : String)
    (h : k ∉ l.keys) :
    (l.foldl (fun p e => partitionField uc clientID p e.1 e.2) p).Fields.get k =
      p.Fields.get k := by
  induction l generalizing p with
  | nil => rfl
  | cons e l ih =>
    simp only [GoMap.keys, List.map_cons, List.mem_cons, not_or] at h
    rw [List.foldl_cons, ih _ h.2, partitionField_Fields_get]
    have hne : ¬ e.1 = k := fun hh => h.1 hh.symm
    simp [hne]

theorem foldPartition_Fields_get_of_mem {σ : Type} (uc : profileAggregator σ)
    (clientID : String) (l : GoMap DataPoint) (p : Profile) (k : String) (dp : DataPoint)
    (hn : l.keys.Nodup) (h : (k, dp) ∈ l) :
    (l.foldl (fun p e => partitionField uc clientID p e.1 e.2) p).Fields.get k =
      if k ≠ "name" ∧ k ≠ "email" ∧ k ≠ "avatar_url" ∧ uc.isFieldAllowed clientID k = true
      then some dp.Value else p.Fields.get k := by
  induction l generalizing p with
  | nil => simp at h
  | cons e l ih =>
    simp only [GoMap.keys, List.map_cons, List.nodup_cons] at hn
    rw [List.foldl_cons]
    rcases List.mem_cons.mp h with h1 | h1
    · subst h1
      rw [foldPartition_Fields_get_of_not_mem uc clientID l _ k hn.1, partitionField_Fields_get]
      simp
    · have hne : ¬ e.1 = k := by
        intro hh
        apply hn.1
        rw [hh]
        exact List.mem_map.mpr ⟨(k, dp), h1, rfl⟩
      rw [ih _ hn.2 h1, partitionField_Fields_get]
      simp [hne]

theorem foldPartition_Fields_keys_nodup {σ : Type} (uc : profileAggregator σ)
    (clientID : String) (l : GoMap DataPoint) (p : Profile) (h : p.Fields.keys.Nodup) :
    (l.foldl (fun p e => partitionField uc clientID p e.1 e.2) p).Fields.keys.Nodup := by
  induction l generalizing p with
  | nil => exact h
  | cons e l ih =>
    rw [List.foldl_cons]
    apply ih
    unfold partitionField
    repeat' split
    all_goals first | exact h | exact GoMap.nodup_set _ _ _ h

theorem partitionField_Name {σ : Type} (uc : profileAggregator σ) (clientID : String)
    (p : Profile) (a : String) (dp : DataPoint) :
    (partitionField uc clientID p a dp).Name =
      if a = "name" then dp.Value.asString.getD p.Name else p.Name := by
  unfold partitionField
  repeat' split
  all_goals simp_all

theorem partitionField_Email {σ : Type} (uc : profileAggregator σ) (clientID : String)
    (p : Profile) (a : String) (dp : DataPoint) :
    (partitionField uc clientID p a dp).Email =
      if a = "email" then dp.Value.asString.getD p.Email else p.Email := by
  unfold partitionField
  repeat' split
  all_goals simp_all

theorem partitionField_AvatarURL {σ : Type} (uc : profileAggregator σ) (clientID : String)
    (p : Profile) (a : String) (dp : DataPoint) :
    (partitionField uc clientID p a dp).AvatarURL =
      if a = "avatar_url" then dp.Value.asString.getD p.AvatarURL else p.AvatarURL := by
  unfold partitionField
  repeat' split
  all_goals simp_all

theorem partitionField_ID {σ : Type} (uc : profileAggregator σ) (clientID : String)
    (p : Profile) (a : String) (dp : DataPoint) :
    (partitionField uc clientID p a dp).ID = p.ID := by
  unfold partitionField
  repeat' split
  all_goals rfl

theorem foldPartition_Name_of_not_mem {σ : Type} (uc : profileAggregator σ)
    (clientID : String) (l : GoMap DataPoint) (p : Profile) (h : "name" ∉ l.keys) :
    (l.foldl (fun p e => partitionField uc clientID p e.1 e.2) p).Name = p.Name := by
  induction l generalizing p with
  | nil => rfl
  | cons e l ih =>
    simp only [GoMap.keys, List.map_cons, List.mem_cons, not_or] at h
    rw [List.foldl_cons, ih _ h.2, partitionField_Name, if_neg (fun hh => h.1 hh.symm)]

theorem foldPartition_Name_of_mem {σ : Type} (uc : profileAggregator σ)
    (clientID : String) (l : GoMap DataPoint) (p : Profile) (dp : DataPoint)
    (hn : l.keys.Nodup) (h : ("name", dp) ∈ l) :
    (l.foldl (fun p e => partitionField uc clientID p e.1 e.2) p).Name =
      dp.Value.asString.getD p.Name := by
  induction l generalizing p with
  | nil => simp at h
  | cons e l ih =>
    simp only [GoMap.keys, List.map_cons, List.nodup_cons] at hn
    rw [List.foldl_cons]
    rcases List.mem_cons.mp h with h1 | h1
    · subst h1
      rw [foldPartition_Name_of_not_mem uc clientID l _ hn.1, partitionField_Name, if_pos rfl]
    · have hne : ¬ e.1 = "name" := by
        intro hh
        apply hn.1
        rw [hh]
        exact List.mem_map.mpr ⟨("name", dp), h1, rfl⟩
      rw [ih _ hn.2 h1, partitionField_Name, if_neg hne]

theorem foldPartition_Email_of_not_mem {σ : Type} (uc : profileAggregator σ)
    (clientID : String) (l : GoMap DataPoint) (p : Profile) (h : "email" ∉ l.keys) :
    (l.foldl (fun p e => partitionField uc clientID p e.1 e.2) p).Email = p.Email := by
  induction l generalizing p with
  | nil => rfl
  | cons e l ih =>
    simp only [GoMap.keys, List.map_cons, List.mem_cons, not_or] at h
    rw [List.foldl_cons, ih _ h.2, partitionField_Email, if_neg (fun hh => h.1 hh.symm)]

theorem foldPartition_Email_of_mem {σ : Type} (uc : profileAggregator σ)
    (clientID : String) (l : GoMap DataPoint) (p : Profile) (dp : DataPoint)
    (hn : l.keys.Nodup) (h : ("email", dp) ∈ l) :
    (l.foldl (fun p e => partitionField uc clientID p e.1 e.2) p).Email =
      dp.Value.asString.getD p.Email := by
  induction l generalizing p with
  | nil => simp at h
  | cons e l ih =>
    simp only [GoMap.keys, List.map_cons, List.nodup_cons] at hn
    rw [List.foldl_cons]
    rcases List.mem_cons.mp h with h1 | h1
    · subst h1
      rw [foldPartition_Email_of_not_mem uc clientID l _ hn.1, partitionField_Email,
        if_pos rfl]
    · have hne : ¬ e.1 = "email" := by
        intro hh
        apply hn.1
        rw [hh]
        exact List.mem_map.mpr ⟨("email", dp), h1, rfl⟩
      rw [ih _ hn.2 h1, partitionField_Email, if_neg hne]

theorem foldPartition_AvatarURL_of_not_mem {σ : Type} (uc : profileAggregator σ)
    (clientID : String) (l : GoMap DataPoint) (p : Profile) (h : "avatar_url" ∉ l.keys) :
    (l.foldl (fun p e => partitionField uc clientID p e.1 e.2) p).AvatarURL =
      p.AvatarURL := by
  induction l generalizing p with
  | nil => rfl
  | cons e l ih =>
    simp only [GoMap.keys, List.map_cons, List.mem_cons, not_or] at h
    rw [List.foldl_cons, ih _ h.2, partitionField_AvatarURL,
      if_neg (fun hh => h.1 hh.symm)]

theorem foldPartition_AvatarURL_of_mem {σ : Type} (uc : profileAggregator σ)
    (clientID : String) (l : GoMap DataPoint) (p : Profile) (dp : DataPoint)
    (hn : l.keys.Nodup) (h : ("avatar_url", dp) ∈ l) :
    (l.foldl (fun p e => partitionField uc clientID p e.1 e.2) p).AvatarURL =
      dp.Value.asString.getD p.AvatarURL := by
  induction l generalizing p with
  | nil => simp at h
  | cons e l ih =>
    simp only [GoMap.keys, List.map_cons, List.nodup_cons] at hn
    rw [List.foldl_cons]
    rcases List.mem_cons.mp h with h1 | h1
    · subst h1
      rw [foldPartition_AvatarURL_of_not_mem uc clientID l _ hn.1, partitionField_AvatarURL,
        if_pos rfl]
    · have hne : ¬ e.1 = "avatar_url" := by
        intro hh
        apply hn.1
        rw [hh]
        exact List.mem_map.mpr ⟨("avatar_url", dp), h1, rfl⟩
      rw [ih _ hn.2 h1, partitionField_AvatarURL, if_neg hne]

theorem foldPartition_ID {σ : Type} (uc : profileAggregator σ) (clientID : String)
    (l : GoMap DataPoint) (p : Profile) :
    (l.foldl (fun p e => partitionField uc clientID p e.1 e.2) p).ID = p.ID := by
  induction l generalizing p with
  | nil => rfl
  | cons e l ih => rw [List.foldl_cons, ih, partitionField_ID]

/-! ## The two paths of `GetProfile` -/

theorem aggregate_profile {σ : Type} (uc : profileAggregator σ) (st : σ) (ctx : Context)
    (clientID : String) (id : UUID) (sched : Schedule) :
    (aggregate uc st ctx clientID id sched).profile =
      some (buildProfile uc clientID id (mergedBest uc ctx clientID id sched)) := by
  unfold aggregate
  split <;> rfl

theorem aggregate_err {σ : Type} (uc : profileAggregator σ) (st : σ) (ctx : Context)
    (clientID : String) (id : UUID) (sched : Schedule) :
    (aggregate uc st ctx clientID id sched).err = none := by
  unfold aggregate
  split <;> rfl

theorem aggregate_fetched {σ : Type} (uc : profileAggregator σ) (st : σ) (ctx : Context)
    (clientID : String) (id : UUID) (sched : Schedule) :
    (aggregate uc st ctx clientID id sched).fetched =
      (uc.getSourcesForClient clientID).map DataSource.Name := by
  unfold aggregate
  split <;> rfl

theorem GetProfile_of_miss {σ : Type} (uc : profileAggregator σ) (st : σ) (ctx : Context)
    (clientID : String) (id : UUID) (sched : Schedule)
    (h : cacheLookup uc st ctx clientID id = none) :
    uc.GetProfile st ctx clientID id sched = aggregate uc st ctx clientID id sched := by
  unfold profileAggregator.GetProfile
  rw [h]

theorem GetProfile_of_hit {σ : Type} (uc : profileAggregator σ) (st : σ) (ctx : Context)
    (clientID : String) (id : UUID) (sched : Schedule) (cached : Profile)
    (h : cacheLookup uc st ctx clientID id = some cached) :
    uc.GetProfile st ctx clientID id sched =
      { profile := some cached, err := none, store := st, fetched := [] } := by
  unfold profileAggregator.GetProfile
  rw [h]

theorem GetProfile_err {σ : Type} (uc : profileAggregator σ) (st : σ) (ctx : Context)
    (clientID : String) (id : UUID) (sched : Schedule) :
    (uc.GetProfile st ctx clientID id sched).err = none := by
  unfold profileAggregator.GetProfile
  split
  · rfl
  · exact aggregate_err uc st ctx clientID id sched

/-! ## C2: field filtering -/

/-- C2. Field filtering on the aggregation path: for a merged field `k` other
than `name`, `email` and `avatar_url`, `k` is a key of the result's `Fields`
if and only if the tenant has no configured allow-list or `k` is on it, and
then it carries the merged value; `name`, `email` and `avatar_url` with string
values are set on the profile whatever the allow-list is.  In the test's
setting, `client1` (allow-list `extra_one`) gets `extra_one`, `name` and
`avatar_url` but not `extra_two`, and `client2` (no allow-list) gets both
extras. -/
theorem field_filtering {σ : Type} (uc : profileAggregator σ) (st : σ) (ctx : Context)
    (clientID : String) (id : UUID) (sched : Schedule)
    (hmiss : cacheLookup uc st ctx clientID id = none) :
    ∃ p, (uc.GetProfile st ctx clientID id sched).profile = some p ∧
      (∀ k dp, k ≠ "name" → k ≠ "email" → k ≠ "avatar_url" →
        (mergedBest uc ctx clientID id sched).get k = some dp →
          (p.Fields.contains k = true ↔ FieldPermitted uc clientID k) ∧
          (FieldPermitted uc clientID k → p.Fields.get k = some dp.Value)) ∧
      (∀ dp s, (mergedBest uc ctx clientID id sched).get "name" = some dp →
        dp.Value = .str s → p.Name = s) ∧
      (∀ dp s, (mergedBest uc ctx clientID id sched).get "email" = some dp →
        dp.Value = .str s → p.Email = s) ∧
      (∀ dp s, (mergedBest uc ctx clientID id sched).get "avatar_url" = some dp →
        dp.Value = .str s → p.AvatarURL = s) ∧
      (∀ (sched' : Schedule) (id' : UUID), sched'.Fair →
        (filteringAggregator.GetProfile () Context.Background "client1" id' sched').profile =
          some { ID := id', Name := "Common Name", Email := "",
                 AvatarURL := "http://avatar.com",
                 Fields := [("extra_one", .str "Extra 1")] }) ∧
      (∀ (sched' : Schedule) (id' : UUID), sched'.Fair →
        (filteringAggregator.GetProfile () Context.Background "client2" id' sched').profile =
          some { ID := id', Name := "Common Name", Email := "",
                 AvatarURL := "http://avatar.com",
                 Fields := [("extra_one", .str "Extra 1"), ("extra_two", .str "Extra 2")] }) := by
  have hnd := mergedBest_keys_nodup uc ctx clientID id sched
  refine ⟨buildProfile uc clientID id (mergedBest uc ctx clientID id sched), ?_, ?_, ?_, ?_,
    ?_, ?_, ?_⟩
  · rw [GetProfile_of_miss uc st ctx clientID id sched hmiss, aggregate_profile]
  · intro k dp h1 h2 h3 hget
    have hmem := GoMap.mem_of_get _ _ _ hget
    have hf := foldPartition_Fields_get_of_mem uc clientID _ (NewProfile id) k dp hnd hmem
    rw [← buildProfile_eq] at hf
    constructor
    · unfold GoMap.contains
      rw [hf, ← isFieldAllowed_iff]
      by_cases ha : uc.isFieldAllowed clientID k = true
      · simp [h1, h2, h3, ha]
      · simp [h1, h2, h3, ha, NewProfile, GoMap.get]
    · intro hp
      rw [hf, if_pos ⟨h1, h2, h3, (isFieldAllowed_iff uc clientID k).mpr hp⟩]
  · intro dp s hget hs
    rw [buildProfile_eq, foldPartition_Name_of_mem uc clientID _ _ dp hnd
      (GoMap.mem_of_get _ _ _ hget), hs]
    rfl
  · intro dp s hget hs
    rw [buildProfile_eq, foldPartition_Email_of_mem uc clientID _ _ dp hnd
      (GoMap.mem_of_get _ _ _ hget), hs]
    rfl
  · intro dp s hget hs
    rw [buildProfile_eq, foldPartition_AvatarURL_of_mem uc clientID _ _ dp hnd
      (GoMap.mem_of_get _ _ _ hget), hs]
    rfl
  · intro sched' id' hfair
    have hs := List.perm_singleton.mp
      (hfair (arrivals (fetchAll filteringAggregator Context.Background "client1" id')))
    rw [GetProfile_of_miss filteringAggregator () Context.Background "client1" id' sched' rfl,
      aggregate_profile]
    unfold mergedBest
    rw [hs]
    rfl
  · intro sched' id' hfair
    have hs := List.perm_singleton.mp
      (hfair (arrivals (fetchAll filteringAggregator Context.Background "client2" id')))
    rw [GetProfile_of_miss filteringAggregator () Context.Background "client2" id' sched' rfl,
      aggregate_profile]
    unfold mergedBest
    rw [hs]
    rfl

/-- C2 at the test's restricted tenant: `extra_one` is merged and kept. -/
theorem field_filtering_witness :
    cacheLookup filteringAggregator () Context.Background "client1" ⟨"u"⟩ = none ∧
    ∃ p, (filteringAggregator.GetProfile () Context.Background "client1" ⟨"u"⟩ id).profile =
        some p ∧
      p.Fields.get "extra_one" = some (.str "Extra 1") ∧
      p.Name = "Common Name" ∧ p.AvatarURL = "http://avatar.com" := by
  obtain ⟨p, hp, hf, hn, _, ha, _, _⟩ :=
    field_filtering filteringAggregator () Context.Background "client1" ⟨"u"⟩ id rfl
  refine ⟨rfl, p, hp, ?_, ?_, ?_⟩
  · exact (hf "extra_one" ⟨.str "Extra 1", 0⟩ (by decide) (by decide) (by decide)
      (by decide)).2 (Or.inr ⟨["extra_one"], by decide, by simp⟩)
  · exact hn ⟨.str "Common Name", 0⟩ "Common Name" (by decide) rfl
  · exact ha ⟨.str "http://avatar.com", 0⟩ "http://avatar.com" (by decide) rfl

/-! ## Where the data of an aggregated profile come from -/

theorem partitionField_Fields_mem {σ : Type} (uc : profileAggregator σ) (clientID : String)
    (p : Profile) (a : String) (dp : DataPoint) (e : String × Value)
    (h : e ∈ (partitionField uc clientID p a dp).Fields) :
    e ∈ p.Fields ∨ (e = (a, dp.Value) ∧ a ≠ "name" ∧ a ≠ "email" ∧ a ≠ "avatar_url" ∧
      uc.isFieldAllowed clientID a = true) := by
  unfold partitionField at h
  by_cases h1 : a = "name"
  · subst h1
    cases hv : dp.Value.asString <;> simp [hv] at h <;> exact Or.inl h
  · by_cases h2 : a = "email"
    · subst h2
      cases hv : dp.Value.asString <;> simp [hv] at h <;> exact Or.inl h
    · by_cases h3 : a = "avatar_url"
      · subst h3
        cases hv : dp.Value.asString <;> simp [hv] at h <;> exact Or.inl h
      · by_cases h4 : uc.isFieldAllowed clientID a = true
        · simp only [h1, h2, h3, h4, if_false, if_true] at h
          rcases GoMap.mem_set _ _ _ _ h with h5 | h5
          · exact Or.inr ⟨h5, h1, h2, h3, h4⟩
          · exact Or.inl h5
        · simp only [h1, h2, h3, h4, if_false] at h
          exact Or.inl h

theorem foldPartition_Fields_mem {σ : Type} (uc : profileAggregator σ) (clientID : String)
    (l : GoMap DataPoint) (p : Profile) (e : String × Value)
    (h : e ∈ (l.foldl (fun p e => partitionField uc clientID p e.1 e.2) p).Fields) :
    e ∈ p.Fields ∨ (∃ dp, (e.1, dp) ∈ l ∧ dp.Value = e.2 ∧ e.1 ≠ "name" ∧ e.1 ≠ "email" ∧
      e.1 ≠ "avatar_url" ∧ uc.isFieldAllowed clientID e.1 = true) := by
  induction l generalizing p with
  | nil => exact Or.inl h
  | cons x l ih =>
    rw [List.foldl_cons] at h
    rcases ih _ h with h1 | ⟨dp, h1, h2⟩
    · rcases partitionField_Fields_mem uc clientID p x.1 x.2 e h1 with h3 | ⟨h3, h4⟩
      · exact Or.inl h3
      · refine Or.inr ⟨x.2, ?_, ?_, ?_⟩
        · rw [h3]
          exact List.mem_cons_self _ _
        · rw [h3]
        · rw [h3]
          exact h4
    · exact Or.inr ⟨dp, List.mem_cons_of_mem _ h1, h2⟩

theorem foldPartition_Name_source {σ : Type} (uc : profileAggregator σ) (clientID : String)
    (l : GoMap DataPoint) (p : Profile) :
    (l.foldl (fun p e => partitionField uc clientID p e.1 e.2) p).Name = p.Name ∨
    ∃ dp, ("name", dp) ∈ l ∧ dp.Value =
      .str (l.foldl (fun p e => partitionField uc clientID p e.1 e.2) p).Name := by
  induction l generalizing p with
  | nil => exact Or.inl rfl
  | cons x l ih =>
    rw [List.foldl_cons]
    rcases ih (partitionField uc clientID p x.1 x.2) with h | ⟨dp, h1, h2⟩
    · rw [h, partitionField_Name]
      by_cases hx : x.1 = "name"
      · cases hv : x.2.Value.asString with
        | none => simp [hx, hv]
        | some s =>
          refine Or.inr ⟨x.2, ?_, ?_⟩
          · rw [← hx]
            exact List.mem_cons_self _ _
          · cases hval : x.2.Value <;> simp [hval, Value.asString] at hv
            simp [hx, hv, Value.asString]
      · simp [hx]
    · exact Or.inr ⟨dp, List.mem_cons_of_mem _ h1, h2⟩

theorem foldPartition_Email_source {σ : Type} (uc : profileAggregator σ) (clientID : String)
    (l : GoMap DataPoint) (p : Profile) :
    (l.foldl (fun p e => partitionField uc clientID p e.1 e.2) p).Email = p.Email ∨
    ∃ dp, ("email", dp) ∈ l ∧ dp.Value =
      .str (l.foldl (fun p e => partitionField uc clientID p e.1 e.2) p).Email := by
  induction l generalizing p with
  | nil => exact Or.inl rfl
  | cons x l ih =>
    rw [List.foldl_cons]
    rcases ih (partitionField uc clientID p x.1 x.2) with h | ⟨dp, h1, h2⟩
    · rw [h, partitionField_Email]
      by_cases hx : x.1 = "email"
      · cases hv : x.2.Value.asString with
        | none => simp [hx, hv]
        | some s =>
          refine Or.inr ⟨x.2, ?_, ?_⟩
          · rw [← hx]
            exact List.mem_cons_self _ _
          · cases hval : x.2.Value <;> simp [hval, Value.asString] at hv
            simp [hx, hv, Value.asString]
      · simp [hx]
    · exact Or.inr ⟨dp, List.mem_cons_of_mem _ h1, h2⟩

theorem foldPartition_AvatarURL_source {σ : Type} (uc : profileAggregator σ)
    (clientID : String) (l : GoMap DataPoint) (p : Profile) :
    (l.foldl (fun p e => partitionField uc clientID p e.1 e.2) p).AvatarURL = p.AvatarURL ∨
    ∃ dp, ("avatar_url", dp) ∈ l ∧ dp.Value =
      .str (l.foldl (fun p e => partitionField uc clientID p e.1 e.2) p).AvatarURL := by
  induction l generalizing p with
  | nil => exact Or.inl rfl
  | cons x l ih =>
    rw [List.foldl_cons]
    rcases ih (partitionField uc clientID p x.1 x.2) with h | ⟨dp, h1, h2⟩
    · rw [h, partitionField_AvatarURL]
      by_cases hx : x.1 = "avatar_url"
      · cases hv : x.2.Value.asString with
        | none => simp [hx, hv]
        | some s =>
          refine Or.inr ⟨x.2, ?_, ?_⟩
          · rw [← hx]
            exact List.mem_cons_self _ _
          · cases hval : x.2.Value <;> simp [hval, Value.asString] at hv
            simp [hx, hv, Value.asString]
      · simp [hx]
    · exact Or.inr ⟨dp, List.mem_cons_of_mem _ h1, h2⟩

theorem arrivals_mem (results : List FetchResult) (d : GoMap DataPoint)
    (h : d ∈ arrivals results) : ∃ r ∈ results, r.err = none ∧ r.data = d := by
  unfold arrivals at h
  rw [List.mem_filterMap] at h
  obtain ⟨r, hr, hd⟩ := h
  refine ⟨r, hr, ?_⟩
  cases he : r.err with
  | none =>
    rw [he] at hd
    exact ⟨rfl, Option.some.inj hd⟩
  | some e =>
    rw [he] at hd
    simp at hd

theorem mergedBest_mem {σ : Type} (uc : profileAggregator σ) (ctx : Context)
    (clientID : String) (id : UUID) (sched : Schedule) (hfair : sched.Fair)
    (e : String × DataPoint) (h : e ∈ mergedBest uc ctx clientID id sched) :
    ∃ s ∈ uc.getSourcesForClient clientID,
      (s.Fetch (ctx.WithTimeout uc.sourceTimeout) id).err = none ∧
      e ∈ (s.Fetch (ctx.WithTimeout uc.sourceTimeout) id).data := by
  unfold mergedBest at h
  rcases foldl_mergeData_mem _ _ _ h with ⟨d, hd, he⟩ | h1
  · have hd' := (hfair _).mem_iff.mp hd
    obtain ⟨r, hr, herr, hdata⟩ := arrivals_mem _ _ hd'
    unfold fetchAll at hr
    rw [List.mem_map] at hr
    obtain ⟨s, hs, hsr⟩ := hr
    refine ⟨s, hs, ?_, ?_⟩
    · rw [hsr]
      exact herr
    · rw [hsr, hdata]
      exact he
  · simp at h1

theorem buildProfile_onlyFrom {σ : Type} (uc : profileAggregator σ) (ctx : Context)
    (clientID : String) (id : UUID) (sched : Schedule) (hfair : sched.Fair) :
    OnlyFrom (uc.getSourcesForClient clientID) (ctx.WithTimeout uc.sourceTimeout) id
      (buildProfile uc clientID id (mergedBest uc ctx clientID id sched)) := by
  have key : ∀ k dp, (k, dp) ∈ mergedBest uc ctx clientID id sched →
      Contributed (uc.getSourcesForClient clientID) (ctx.WithTimeout uc.sourceTimeout) id k
        dp.Value := by
    intro k dp hmem
    obtain ⟨s, hs, herr, hdata⟩ := mergedBest_mem uc ctx clientID id sched hfair _ hmem
    exact ⟨s, hs, herr, dp, hdata, rfl⟩
  refine ⟨?_, ?_, ?_, ?_⟩
  · intro k v hget
    have hmem := GoMap.mem_of_get _ _ _ hget
    rw [buildProfile_eq] at hmem
    rcases foldPartition_Fields_mem uc clientID _ _ _ hmem with h | ⟨dp, h1, h2, _⟩
    · simp [NewProfile] at h
    · have := key k dp h1
      rw [h2] at this
      exact this
  · intro hne
    rcases foldPartition_Name_source uc clientID (mergedBest uc ctx clientID id sched)
      (NewProfile id) with h | ⟨dp, h1, h2⟩
    · exact absurd h hne
    · have := key "name" dp h1
      rw [h2] at this
      exact this
  · intro hne
    rcases foldPartition_Email_source uc clientID (mergedBest uc ctx clientID id sched)
      (NewProfile id) with h | ⟨dp, h1, h2⟩
    · exact absurd h hne
    · have := key "email" dp h1
      rw [h2] at this
      exact this
  · intro hne
    rcases foldPartition_AvatarURL_source uc clientID (mergedBest uc ctx clientID id sched)
      (NewProfile id) with h | ⟨dp, h1, h2⟩
    · exact absurd h hne
    · have := key "avatar_url" dp h1
      rw [h2] at this
      exact this

/-! ## Provider selection -/

theorem matchesAnyName_iff (src : DataSource) (names : List String) :
    matchesAnyName src names = true ↔ src.Name ∈ names := by
  induction names with
  | nil => simp [matchesAnyName]
  | cons n ns ih =>
    by_cases h : src.Name = n
    · simp [matchesAnyName, h]
    · simp [matchesAnyName, h, ih]

theorem filterSources_eq_filter (names : List String) (srcs : List DataSource) :
    filterSources names srcs = srcs.filter (fun s => decide (s.Name ∈ names)) := by
  induction srcs with
  | nil => rfl
  | cons s rest ih =>
    by_cases h : s.Name ∈ names
    · simp [filterSources, (matchesAnyName_iff s names).mpr h, h, ih]
    · have h' : ¬ matchesAnyName s names = true := fun hh => h ((matchesAnyName_iff s names).mp hh)
      simp [filterSources, h', h, ih]

theorem filterSources_append (names : List String) (l1 l2 : List DataSource) :
    filterSources names (l1 ++ l2) = filterSources names l1 ++ filterSources names l2 := by
  simp [filterSources_eq_filter]

theorem filterSources_idem (names : List String) (srcs : List DataSource) :
    filterSources names (filterSources names srcs) = filterSources names srcs := by
  simp [filterSources_eq_filter]

theorem partitionField_congr {σ : Type} (uc uc' : profileAggregator σ)
    (h : uc'.clientFields = uc.clientFields) (clientID : String) :
    partitionField uc' clientID = partitionField uc clientID := by
  funext p k dp
  unfold partitionField profileAggregator.isFieldAllowed
  rw [h]

theorem aggregate_congr {σ : Type} (uc uc' : profileAggregator σ) (st : σ) (ctx : Context)
    (clientID : String) (id : UUID) (sched : Schedule)
    (h1 : uc'.cache = uc.cache) (h2 : uc'.clientFields = uc.clientFields)
    (h3 : uc'.sourceTimeout = uc.sourceTimeout)
    (h4 : uc'.getSourcesForClient clientID = uc.getSourcesForClient clientID) :
    aggregate uc' st ctx clientID id sched = aggregate uc st ctx clientID id sched := by
  unfold aggregate mergedBest fetchAll buildProfile
  rw [h1, h3, h4, partitionField_congr uc uc' h2]

theorem cacheLookup_congr {σ : Type} (uc uc' : profileAggregator σ) (st : σ) (ctx : Context)
    (clientID : String) (id : UUID) (h1 : uc'.cache = uc.cache) :
    cacheLookup uc' st ctx clientID id = cacheLookup uc st ctx clientID id := by
  unfold cacheLookup
  rw [h1]

theorem GetProfile_congr {σ : Type} (uc uc' : profileAggregator σ) (st : σ) (ctx : Context)
    (clientID : String) (id : UUID) (sched : Schedule)
    (h1 : uc'.cache = uc.cache) (h2 : uc'.clientFields = uc.clientFields)
    (h3 : uc'.sourceTimeout = uc.sourceTimeout)
    (h4 : uc'.getSourcesForClient clientID = uc.getSourcesForClient clientID) :
    uc'.GetProfile st ctx clientID id sched = uc.GetProfile st ctx clientID id sched := by
  unfold profileAggregator.GetProfile
  rw [cacheLookup_congr uc uc' st ctx clientID id h1,
    aggregate_congr uc uc' st ctx clientID id sched h1 h2 h3 h4]

/-! ## C3: provider selection -/

/-- C3. Provider selection: a tenant without an `allowedProviders` entry has
every registered provider fetched; with an entry `names`, the providers fetched
are the registered providers whose name is in `names`, each as often as it is
registered and in registration order, and the call returns what it returns
when the other providers are not registered at all; every datum of the
returned profile was contributed by a permitted provider. -/
theorem provider_selection {σ : Type} (uc : profileAggregator σ) (st : σ) (ctx : Context)
    (clientID : String) (id : UUID) (sched : Schedule)
    (hmiss : cacheLookup uc st ctx clientID id = none) (hfair : sched.Fair) :
    (uc.clientSources.get clientID = none → uc.getSourcesForClient clientID = uc.sources) ∧
    (∀ names, uc.clientSources.get clientID = some names →
      uc.getSourcesForClient clientID =
        uc.sources.filter (fun s => decide (s.Name ∈ names)) ∧
      uc.GetProfile st ctx clientID id sched =
        ({ uc with sources := uc.sources.filter (fun s => decide (s.Name ∈ names)) } :
          profileAggregator σ).GetProfile st ctx clientID id sched) ∧
    (uc.GetProfile st ctx clientID id sched).fetched =
      (uc.getSourcesForClient clientID).map DataSource.Name ∧
    ∃ p, (uc.GetProfile st ctx clientID id sched).profile = some p ∧
      OnlyFrom (uc.getSourcesForClient clientID) (ctx.WithTimeout uc.sourceTimeout) id p := by
  refine ⟨?_, ?_, ?_, ?_⟩
  · intro h
    unfold profileAggregator.getSourcesForClient
    rw [h]
  · intro names h
    have hsel : uc.getSourcesForClient clientID =
        uc.sources.filter (fun s => decide (s.Name ∈ names)) := by
      unfold profileAggregator.getSourcesForClient
      rw [h]
      exact filterSources_eq_filter names uc.sources
    refine ⟨hsel, ?_⟩
    symm
    refine GetProfile_congr uc _ st ctx clientID id sched ?_ ?_ ?_ ?_
    · rfl
    · rfl
    · rfl
    rw [hsel]
    unfold profileAggregator.getSourcesForClient
    show (match uc.clientSources.get clientID with
      | none => uc.sources.filter (fun (s : DataSource) => decide (s.Name ∈ names))
      | some names' => filterSources names'
          (uc.sources.filter (fun (s : DataSource) => decide (s.Name ∈ names)))) = _
    rw [h]
    simp [filterSources_eq_filter]
  · rw [GetProfile_of_miss uc st ctx clientID id sched hmiss, aggregate_fetched]
  · refine ⟨_, ?_, buildProfile_onlyFrom uc ctx clientID id sched hfair⟩
    rw [GetProfile_of_miss uc st ctx clientID id sched hmiss, aggregate_profile]

/-- C3 at the server's four providers with the tenant `t` restricted to
`source4` and `source2`: they are fetched in registration order. -/
theorem provider_selection_witness :
    cacheLookup (serverAggregator.SetClientSources "t" ["source4", "source2"]) ()
      Context.Background "t" ⟨"u"⟩ = none ∧
    Schedule.Fair id ∧
    ((serverAggregator.SetClientSources "t" ["source4", "source2"]).GetProfile ()
      Context.Background "t" ⟨"u"⟩ id).fetched = ["source2", "source4"] :=
  ⟨rfl, fun l => List.Perm.refl l,
    (provider_selection (serverAggregator.SetClientSources "t" ["source4", "source2"]) ()
      Context.Background "t" ⟨"u"⟩ id rfl (fun l => List.Perm.refl l)).2.2.1.trans
      (by decide)⟩

/-! ## C4: cache-then-aggregate equivalence -/

theorem cacheLookup_eq_some_iff {σ : Type} (uc : profileAggregator σ) (c : ProfileCache σ)
    (hc : uc.cache = some c) (st : σ) (ctx : Context) (clientID : String) (id : UUID)
    (p : Profile) :
    cacheLookup uc st ctx clientID id = some p ↔
      c.Get st (ctx.WithTimeout 50000000) clientID id = (some p, none) := by
  unfold cacheLookup
  rw [hc]
  simp only
  split
  · rename_i cached h
    rw [h]
    simp
  · rename_i h
    constructor
    · intro h'
      cases h'
    · intro h'
      exact absurd h' (h p)

theorem aggregate_store {σ : Type} (uc : profileAggregator σ) (c : ProfileCache σ)
    (hc : uc.cache = some c) (st : σ) (ctx : Context) (clientID : String) (id : UUID)
    (sched : Schedule) :
    (aggregate uc st ctx clientID id sched).store =
      (c.Set st ctx clientID
        (buildProfile uc clientID id (mergedBest uc ctx clientID id sched)) 0).1 := by
  unfold aggregate
  rw [hc]

theorem buildProfile_ID {σ : Type} (uc : profileAggregator σ) (clientID : String) (id : UUID)
    (best : GoMap DataPoint) : (buildProfile uc clientID id best).ID = id := by
  rw [buildProfile_eq, foldPartition_ID]
  rfl

/-- C4. Cache-then-aggregate equivalence: with a cache whose `Get` returns what
`Set` last stored for the key, the second `GetProfile` call for the same
tenant and identity, run on the store the first call left, returns the first
call's profile, no error, and calls no provider's `Fetch`. -/
theorem cache_then_aggregate {σ : Type} (uc : profileAggregator σ) (c : ProfileCache σ)
    (hc : uc.cache = some c) (hrel : c.Reliable) (st : σ) (ctx1 ctx2 : Context)
    (clientID : String) (id : UUID) (sched1 sched2 : Schedule) :
    (uc.GetProfile (uc.GetProfile st ctx1 clientID id sched1).store ctx2 clientID id
        sched2).profile = (uc.GetProfile st ctx1 clientID id sched1).profile ∧
    (uc.GetProfile (uc.GetProfile st ctx1 clientID id sched1).store ctx2 clientID id
        sched2).err = none ∧
    (uc.GetProfile (uc.GetProfile st ctx1 clientID id sched1).store ctx2 clientID id
        sched2).fetched = [] := by
  cases h : cacheLookup uc st ctx1 clientID id with
  | none =>
    rw [GetProfile_of_miss uc st ctx1 clientID id sched1 h, aggregate_profile,
      aggregate_store uc c hc]
    have hget := hrel.1 st ctx1 (ctx2.WithTimeout 50000000) clientID
      (buildProfile uc clientID id (mergedBest uc ctx1 clientID id sched1)) 0
    rw [buildProfile_ID] at hget
    have hhit := (cacheLookup_eq_some_iff uc c hc _ ctx2 clientID id _).mpr hget
    rw [GetProfile_of_hit uc _ ctx2 clientID id sched2 _ hhit]
    exact ⟨rfl, rfl, rfl⟩
  | some cached =>
    rw [GetProfile_of_hit uc st ctx1 clientID id sched1 cached h]
    have hget := (cacheLookup_eq_some_iff uc c hc st ctx1 clientID id cached).mp h
    have hget2 := hrel.2 st _ (ctx2.WithTimeout 50000000) clientID id cached hget
    have hhit := (cacheLookup_eq_some_iff uc c hc st ctx2 clientID id cached).mpr hget2
    rw [GetProfile_of_hit uc st ctx2 clientID id sched2 cached hhit]
    exact ⟨rfl, rfl, rfl⟩

theorem memCache_reliable : memCache.Reliable := by
  constructor
  · intro st ctx ctx' clientID p ttl
    simp [memCache, GoMap.get_set_self]
  · intro st ctx ctx' clientID id p h
    exact h

/-- C4 at the setting of `TestProfileCaching`, from an empty in-memory cache. -/
theorem cache_then_aggregate_witness :
    cachingAggregator.cache = some memCache ∧ memCache.Reliable ∧
    (cachingAggregator.GetProfile
        (cachingAggregator.GetProfile [] Context.Background "client1" ⟨"u"⟩ id).store
        Context.Background "client1" ⟨"u"⟩ id).profile =
      (cachingAggregator.GetProfile [] Context.Background "client1" ⟨"u"⟩ id).profile ∧
    (cachingAggregator.GetProfile
        (cachingAggregator.GetProfile [] Context.Background "client1" ⟨"u"⟩ id).store
        Context.Background "client1" ⟨"u"⟩ id).err = none ∧
    (cachingAggregator.GetProfile
        (cachingAggregator.GetProfile [] Context.Background "client1" ⟨"u"⟩ id).store
        Context.Background "client1" ⟨"u"⟩ id).fetched = [] :=
  ⟨rfl, memCache_reliable,
    cache_then_aggregate cachingAggregator memCache rfl memCache_reliable []
      Context.Background Context.Background "client1" ⟨"u"⟩ id id⟩

/-! ## C5: the policy setters -/

theorem buildProfile_Fields_allowed {σ : Type} (uc : profileAggregator σ) (clientID : String)
    (id : UUID) (best : GoMap DataPoint) (k : String)
    (h : (buildProfile uc clientID id best).Fields.contains k = true) :
    k ≠ "name" ∧ k ≠ "email" ∧ k ≠ "avatar_url" ∧ uc.isFieldAllowed clientID k = true := by
  unfold GoMap.contains at h
  obtain ⟨v, hv⟩ := Option.isSome_iff_exists.mp h
  have hmem := GoMap.mem_of_get _ _ _ hv
  rw [buildProfile_eq] at hmem
  rcases foldPartition_Fields_mem uc clientID _ _ _ hmem with h1 | ⟨dp, _, _, h2⟩
  · simp [NewProfile] at h1
  · exact h2

/-- C5, counterexample. After a first call has cached the unrestricted
profile of `client1`, `SetClientFields("client1", ["extra_one"])` does not
keep the next call for the same key from returning the field `extra_two`. -/
theorem policy_setters_counterexample :
    ∃ p, ((cachingAggregator.SetClientFields "client1" ["extra_one"]).GetProfile
        (cachingAggregator.GetProfile [] Context.Background "client1" ⟨"u"⟩ id).store
        Context.Background "client1" ⟨"u"⟩ id).profile = some p ∧
      ¬ (∀ k, p.Fields.contains k = true → k ∈ ["extra_one"]) := by
  refine ⟨{ ID := ⟨"u"⟩, Name := "Common Name", Email := "", AvatarURL := "http://avatar.com",
            Fields := [("extra_one", .str "Extra 1"), ("extra_two", .str "Extra 2")] },
    by decide, ?_⟩
  intro h
  exact absurd (h "extra_two" (by decide)) (by decide)

/-- C5, amended. A `GetProfile` call made after `SetClientFields(tenant, names)`
that is not answered from the cache returns a profile whose `Fields` keys all
belong to `names`; one made after `SetClientSources(tenant, names)` that is not
answered from the cache fetches exactly the registered providers named in
`names` and returns only their contributions.  A call answered from the cache
returns the cached profile as it is, whatever the new policy. -/
theorem policy_setters_effective {σ : Type} (uc : profileAggregator σ) (st : σ)
    (ctx : Context) (clientID : String) (id : UUID) (sched : Schedule) (names : List String)
    (hfair : sched.Fair) :
    (cacheLookup uc st ctx clientID id = none →
      (∃ p, ((uc.SetClientFields clientID names).GetProfile st ctx clientID id
          sched).profile = some p ∧
        ∀ k, p.Fields.contains k = true → k ∈ names) ∧
      (∃ p, ((uc.SetClientSources clientID names).GetProfile st ctx clientID id
          sched).profile = some p ∧
        OnlyFrom (uc.sources.filter (fun s => decide (s.Name ∈ names)))
          (ctx.WithTimeout uc.sourceTimeout) id p) ∧
      ((uc.SetClientSources clientID names).GetProfile st ctx clientID id sched).fetched =
        (uc.sources.filter (fun s => decide (s.Name ∈ names))).map DataSource.Name) ∧
    (∀ cached, cacheLookup uc st ctx clientID id = some cached →
      ((uc.SetClientFields clientID names).GetProfile st ctx clientID id sched).profile =
        some cached ∧
      ((uc.SetClientSources clientID names).GetProfile st ctx clientID id sched).profile =
        some cached) := by
  have hcf : cacheLookup (uc.SetClientFields clientID names) st ctx clientID id =
      cacheLookup uc st ctx clientID id := cacheLookup_congr uc _ st ctx clientID id rfl
  have hcs : cacheLookup (uc.SetClientSources clientID names) st ctx clientID id =
      cacheLookup uc st ctx clientID id := cacheLookup_congr uc _ st ctx clientID id rfl
  have hsel : (uc.SetClientSources clientID names).getSourcesForClient clientID =
      uc.sources.filter (fun s => decide (s.Name ∈ names)) := by
    unfold profileAggregator.getSourcesForClient profileAggregator.SetClientSources
    simp only [GoMap.get_set_self]
    exact filterSources_eq_filter names uc.sources
  constructor
  · intro hmiss
    refine ⟨?_, ?_, ?_⟩
    · refine ⟨buildProfile (uc.SetClientFields clientID names) clientID id
        (mergedBest (uc.SetClientFields clientID names) ctx clientID id sched), ?_, ?_⟩
      · rw [GetProfile_of_miss _ st ctx clientID id sched (hcf.trans hmiss), aggregate_profile]
      · intro k hk
        have hal := (buildProfile_Fields_allowed _ clientID id _ k hk).2.2.2
        unfold profileAggregator.isFieldAllowed profileAggregator.SetClientFields at hal
        simp only [GoMap.get_set_self] at hal
        exact (fieldListed_iff k names).mp hal
    · refine ⟨buildProfile (uc.SetClientSources clientID names) clientID id
        (mergedBest (uc.SetClientSources clientID names) ctx clientID id sched), ?_, ?_⟩
      · rw [GetProfile_of_miss _ st ctx clientID id sched (hcs.trans hmiss), aggregate_profile]
      · have h := buildProfile_onlyFrom (uc.SetClientSources clientID names) ctx clientID id
          sched hfair
        rw [hsel] at h
        exact h
    · rw [GetProfile_of_miss _ st ctx clientID id sched (hcs.trans hmiss), aggregate_fetched,
        hsel]
  · intro cached hhit
    constructor
    · rw [GetProfile_of_hit _ st ctx clientID id sched cached (hcf.trans hhit)]
    · rw [GetProfile_of_hit _ st ctx clientID id sched cached (hcs.trans hhit)]

/-- C5 amended, at the test's aggregator without a cache: after
`SetClientSources("t", ["source9"])` no provider is fetched. -/
theorem policy_setters_effective_witness :
    Schedule.Fair id ∧
    cacheLookup (NewProfileAggregator 200000000 none [multiFieldSource "src1"] :
      profileAggregator Unit) () Context.Background "t" ⟨"u"⟩ = none ∧
    (((NewProfileAggregator 200000000 none [multiFieldSource "src1"] :
      profileAggregator Unit).SetClientSources "t" ["source9"]).GetProfile ()
      Context.Background "t" ⟨"u"⟩ id).fetched = [] :=
  ⟨fun l => List.Perm.refl l, rfl,
    ((policy_setters_effective
      (NewProfileAggregator 200000000 none [multiFieldSource "src1"] : profileAggregator Unit)
      () Context.Background "t" ⟨"u"⟩ id ["source9"] (fun l => List.Perm.refl l)).1 rfl).2.2.trans
      (by decide)⟩

/-! ## C6: a request context that is already done -/

theorem WithTimeout_Err (ctx : Context) (d : Nat) (h : ctx.Err ≠ none) :
    (ctx.WithTimeout d).Err ≠ none := by
  unfold Context.Err at h ⊢
  unfold Context.WithTimeout
  by_cases hc : ctx.cancelled = true
  · simp [hc]
  · by_cases hr : ctx.remaining = some 0
    · simp [hc, hr]
    · simp [hc, hr] at h

theorem getSourcesForClient_subset {σ : Type} (uc : profileAggregator σ) (clientID : String)
    (s : DataSource) (h : s ∈ uc.getSourcesForClient clientID) : s ∈ uc.sources := by
  unfold profileAggregator.getSourcesForClient at h
  split at h
  · exact h
  · rw [filterSources_eq_filter] at h
    exact List.mem_of_mem_filter h

theorem arrivals_eq_nil (results : List FetchResult) (h : ∀ r ∈ results, r.err ≠ none) :
    arrivals results = [] := by
  induction results with
  | nil => rfl
  | cons r rs ih =>
    have hr := h r (List.mem_cons_self _ _)
    cases he : r.err with
    | none => exact absurd he hr
    | some e =>
      unfold arrivals
      rw [List.filterMap_cons]
      simp only [he]
      exact ih (fun x hx => h x (List.mem_cons_of_mem _ hx))

/-- C6, counterexample. With the server's providers, no cache and a request
context that is already cancelled (or whose deadline has expired), `GetProfile`
returns a nil error and the empty profile. -/
theorem upfront_cancellation_counterexample :
    (Context.mk true none).Err = some Error.Canceled ∧
    cacheLookup serverAggregator () ⟨true, none⟩ "default" ⟨"u"⟩ = none ∧
    (serverAggregator.GetProfile () ⟨true, none⟩ "default" ⟨"u"⟩ id).err = none ∧
    (serverAggregator.GetProfile () ⟨true, none⟩ "default" ⟨"u"⟩ id).profile =
      some (NewProfile ⟨"u"⟩) ∧
    (Context.mk false (some 0)).Err = some Error.DeadlineExceeded ∧
    (serverAggregator.GetProfile () ⟨false, some 0⟩ "default" ⟨"u"⟩ id).err = none ∧
    (serverAggregator.GetProfile () ⟨false, some 0⟩ "default" ⟨"u"⟩ id).profile =
      some (NewProfile ⟨"u"⟩) := by
  decide

/-- C6, amended. When the request context is already cancelled or expired and
the cache yields no hit, `GetProfile` still returns a nil error and a profile:
the one merged from the providers whose `Fetch` returned no error, which is
the empty profile of the identity when every provider answers a done context
with an error. -/
theorem upfront_cancellation_amended {σ : Type} (uc : profileAggregator σ) (st : σ)
    (ctx : Context) (clientID : String) (id : UUID) (sched : Schedule)
    (hctx : ctx.Err ≠ none) (hmiss : cacheLookup uc st ctx clientID id = none)
    (hfair : sched.Fair) :
    (uc.GetProfile st ctx clientID id sched).err = none ∧
    (uc.GetProfile st ctx clientID id sched).profile =
      some (buildProfile uc clientID id (mergedBest uc ctx clientID id sched)) ∧
    ((∀ s ∈ uc.sources, ∀ c : Context, c.Err ≠ none → (s.Fetch c id).err ≠ none) →
      (uc.GetProfile st ctx clientID id sched).profile = some (NewProfile id)) := by
  have hp : (uc.GetProfile st ctx clientID id sched).profile =
      some (buildProfile uc clientID id (mergedBest uc ctx clientID id sched)) := by
    rw [GetProfile_of_miss uc st ctx clientID id sched hmiss, aggregate_profile]
  refine ⟨GetProfile_err uc st ctx clientID id sched, hp, ?_⟩
  intro hon
  rw [hp]
  have harr : arrivals (fetchAll uc ctx clientID id) = [] := by
    apply arrivals_eq_nil
    intro r hr
    unfold fetchAll at hr
    obtain ⟨s, hs, hsr⟩ := List.mem_map.mp hr
    rw [← hsr]
    exact hon s (getSourcesForClient_subset uc clientID s hs) _
      (WithTimeout_Err ctx uc.sourceTimeout hctx)
  have hs : sched (arrivals (fetchAll uc ctx clientID id)) = [] := by
    have := hfair (arrivals (fetchAll uc ctx clientID id))
    rw [harr] at this ⊢
    exact List.Perm.eq_nil this
  unfold mergedBest
  rw [hs]
  rfl

/-- C6 amended, at the server's providers under a cancelled context. -/
theorem upfront_cancellation_amended_witness :
    (Context.mk true none).Err ≠ none ∧
    cacheLookup serverAggregator () ⟨true, none⟩ "default" ⟨"u"⟩ = none ∧
    Schedule.Fair id ∧
    (serverAggregator.GetProfile () ⟨true, none⟩ "default" ⟨"u"⟩ id).err = none :=
  ⟨by decide, rfl, fun l => List.Perm.refl l,
    (upfront_cancellation_amended serverAggregator () ⟨true, none⟩ "default" ⟨"u"⟩ id
      (by decide) rfl (fun l => List.Perm.refl l)).1⟩

/-! ## C7: a provider whose `Fetch` fails -/

theorem arrivals_append (l1 l2 : List FetchResult) :
    arrivals (l1 ++ l2) = arrivals l1 ++ arrivals l2 := by
  unfold arrivals
  exact List.filterMap_append _ _ _

theorem arrivals_cons_failed (r : FetchResult) (rs : List FetchResult) (h : r.err ≠ none) :
    arrivals (r :: rs) = arrivals rs := by
  cases he : r.err with
  | none => exact absurd he h
  | some e =>
    unfold arrivals
    rw [List.filterMap_cons]
    simp only [he]

theorem arrivals_remove_failed (F : DataSource → FetchResult) (pre post : List DataSource)
    (f : DataSource) (h : (F f).err ≠ none) :
    arrivals ((pre ++ f :: post).map F) = arrivals ((pre ++ post).map F) := by
  rw [List.map_append, List.map_append, arrivals_append, arrivals_append, List.map_cons,
    arrivals_cons_failed _ _ h]

theorem arrivals_filterSources_remove_failed (F : DataSource → FetchResult)
    (names : List String) (pre post : List DataSource) (f : DataSource)
    (h : (F f).err ≠ none) :
    arrivals ((filterSources names (pre ++ f :: post)).map F) =
      arrivals ((filterSources names (pre ++ post)).map F) := by
  rw [filterSources_append, filterSources_append]
  by_cases hm : matchesAnyName f names = true
  · have : filterSources names (f :: post) = f :: filterSources names post := by
      simp [filterSources, hm]
    rw [this]
    exact arrivals_remove_failed F _ _ f h
  · have : filterSources names (f :: post) = filterSources names post := by
      simp [filterSources, hm]
    rw [this]

theorem aggregate_store_eq {σ : Type} (uc : profileAggregator σ) (st : σ) (ctx : Context)
    (clientID : String) (id : UUID) (sched : Schedule) :
    (aggregate uc st ctx clientID id sched).store =
      match uc.cache with
      | none => st
      | some c => (c.Set st ctx clientID
          (buildProfile uc clientID id (mergedBest uc ctx clientID id sched)) 0).1 := by
  unfold aggregate
  split <;> rfl

/-- C7. Partial-failure tolerance: when the `Fetch` of a registered provider
returns an error under the request context (whatever data comes with it),
`GetProfile` returns no error, and the profile it returns and the cache store
it leaves are those of the same call on the aggregator with that provider
removed. -/
theorem partial_failure_tolerance {σ : Type} (uc : profileAggregator σ)
    (pre post : List DataSource) (f : DataSource) (st : σ) (ctx : Context)
    (clientID : String) (id : UUID) (sched : Schedule)
    (hsrc : uc.sources = pre ++ f :: post)
    (hfail : (f.Fetch (ctx.WithTimeout uc.sourceTimeout) id).err ≠ none) :
    (uc.GetProfile st ctx clientID id sched).err = none ∧
    (uc.GetProfile st ctx clientID id sched).profile =
      (({ uc with sources := pre ++ post } : profileAggregator σ).GetProfile st ctx clientID id
        sched).profile ∧
    (uc.GetProfile st ctx clientID id sched).store =
      (({ uc with sources := pre ++ post } : profileAggregator σ).GetProfile st ctx clientID id
        sched).store := by
  have harr : arrivals (fetchAll ({ uc with sources := pre ++ post } : profileAggregator σ)
      ctx clientID id) = arrivals (fetchAll uc ctx clientID id) := by
    unfold fetchAll profileAggregator.getSourcesForClient
    rw [hsrc]
    simp only
    cases uc.clientSources.get clientID with
    | none => exact (arrivals_remove_failed _ pre post f hfail).symm
    | some names => exact (arrivals_filterSources_remove_failed _ names pre post f hfail).symm
  have hbest : mergedBest ({ uc with sources := pre ++ post } : profileAggregator σ)
      ctx clientID id sched = mergedBest uc ctx clientID id sched := by
    unfold mergedBest
    rw [harr]
  have hbuild : buildProfile ({ uc with sources := pre ++ post } : profileAggregator σ)
      clientID id (mergedBest uc ctx clientID id sched) =
      buildProfile uc clientID id (mergedBest uc ctx clientID id sched) := by
    unfold buildProfile
    rw [partitionField_congr uc ({ uc with sources := pre ++ post } : profileAggregator σ) rfl]
  refine ⟨GetProfile_err uc st ctx clientID id sched, ?_, ?_⟩
  · unfold profileAggregator.GetProfile
    rw [cacheLookup_congr uc ({ uc with sources := pre ++ post } : profileAggregator σ) st ctx
      clientID id rfl]
    split
    · rfl
    · rw [aggregate_profile, aggregate_profile, hbest, hbuild]
  · unfold profileAggregator.GetProfile
    rw [cacheLookup_congr uc ({ uc with sources := pre ++ post } : profileAggregator σ) st ctx
      clientID id rfl]
    split
    · rfl
    · rw [aggregate_store_eq, aggregate_store_eq, hbest, hbuild]

/-- C7 at the server's providers under a request deadline of 25ms, which
`Source1` (30ms) misses. -/
theorem partial_failure_tolerance_witness :
    serverAggregator.sources = [] ++ Source1 :: [Source2, Source3, Source4] ∧
    (Source1.Fetch ((Context.mk false (some 25000000)).WithTimeout
      serverAggregator.sourceTimeout) ⟨"u"⟩).err ≠ none ∧
    (serverAggregator.GetProfile () ⟨false, some 25000000⟩ "default" ⟨"u"⟩ id).profile =
      (({ serverAggregator with sources := [] ++ [Source2, Source3, Source4] } :
        profileAggregator Unit).GetProfile () ⟨false, some 25000000⟩ "default" ⟨"u"⟩
        id).profile :=
  ⟨rfl, by decide,
    (partial_failure_tolerance serverAggregator [] [Source2, Source3, Source4] Source1 ()
      ⟨false, some 25000000⟩ "default" ⟨"u"⟩ id rfl (by decide)).2.1⟩

/-! ## C9: the first-class attributes never enter `Fields` -/

/-- C9. Profile invariant: a profile built by aggregation has none of the keys
`name`, `email`, `avatar_url` in `Fields`, and a merged contribution for one of
them whose value is not a string leaves the attribute empty instead. -/
theorem profile_invariant {σ : Type} (uc : profileAggregator σ) (st : σ) (ctx : Context)
    (clientID : String) (id : UUID) (sched : Schedule)
    (hmiss : cacheLookup uc st ctx clientID id = none) :
    ∃ p, (uc.GetProfile st ctx clientID id sched).profile = some p ∧
      p.Fields.contains "name" = false ∧
      p.Fields.contains "email" = false ∧
      p.Fields.contains "avatar_url" = false ∧
      (∀ dp, (mergedBest uc ctx clientID id sched).get "name" = some dp →
        dp.Value.asString = none → p.Name = "") ∧
      (∀ dp, (mergedBest uc ctx clientID id sched).get "email" = some dp →
        dp.Value.asString = none → p.Email = "") ∧
      (∀ dp, (mergedBest uc ctx clientID id sched).get "avatar_url" = some dp →
        dp.Value.asString = none → p.AvatarURL = "") := by
  have hnd := mergedBest_keys_nodup uc ctx clientID id sched
  refine ⟨buildProfile uc clientID id (mergedBest uc ctx clientID id sched), ?_, ?_, ?_, ?_,
    ?_, ?_, ?_⟩
  · rw [GetProfile_of_miss uc st ctx clientID id sched hmiss, aggregate_profile]
  · cases hc : (buildProfile uc clientID id (mergedBest uc ctx clientID id sched)).Fields.contains
      "name" with
    | false => rfl
    | true => exact absurd rfl (buildProfile_Fields_allowed uc clientID id _ _ hc).1
  · cases hc : (buildProfile uc clientID id (mergedBest uc ctx clientID id sched)).Fields.contains
      "email" with
    | false => rfl
    | true => exact absurd rfl (buildProfile_Fields_allowed uc clientID id _ _ hc).2.1
  · cases hc : (buildProfile uc clientID id (mergedBest uc ctx clientID id sched)).Fields.contains
      "avatar_url" with
    | false => rfl
    | true => exact absurd rfl (buildProfile_Fields_allowed uc clientID id _ _ hc).2.2.1
  · intro dp hget hs
    rw [buildProfile_eq, foldPartition_Name_of_mem uc clientID _ _ dp hnd
      (GoMap.mem_of_get _ _ _ hget), hs]
    rfl
  · intro dp hget hs
    rw [buildProfile_eq, foldPartition_Email_of_mem uc clientID _ _ dp hnd
      (GoMap.mem_of_get _ _ _ hget), hs]
    rfl
  · intro dp hget hs
    rw [buildProfile_eq, foldPartition_AvatarURL_of_mem uc clientID _ _ dp hnd
      (GoMap.mem_of_get _ _ _ hget), hs]
    rfl

/-- A provider that contributes a number for `name` and a boolean for `email`. -/
theorem profile_invariant_witness :
    cacheLookup (NewProfileAggregator 200000000 none
      [timedSource "odd" 0 [("name", ⟨.int 7, 0⟩), ("email", ⟨.bool true, 0⟩)]] :
      profileAggregator Unit) () Context.Background "default" ⟨"u"⟩ = none ∧
    ∃ p, ((NewProfileAggregator 200000000 none
      [timedSource "odd" 0 [("name", ⟨.int 7, 0⟩), ("email", ⟨.bool true, 0⟩)]] :
      profileAggregator Unit).GetProfile () Context.Background "default" ⟨"u"⟩ id).profile =
        some p ∧
      p.Fields.contains "name" = false ∧ p.Fields.contains "email" = false ∧ p.Name = "" := by
  obtain ⟨p, hp, h1, h2, _, h4, _, _⟩ := profile_invariant
    (NewProfileAggregator 200000000 none
      [timedSource "odd" 0 [("name", ⟨.int 7, 0⟩), ("email", ⟨.bool true, 0⟩)]] :
      profileAggregator Unit) () Context.Background "default" ⟨"u"⟩ id rfl
  exact ⟨rfl, p, hp, h1, h2, h4 ⟨.int 7, 0⟩ (by decide) rfl⟩

/-! ## C8: the eviction boundary -/

theorem delKeys_cons {α : Type} (a : String) (b : α) (m : GoMap α) (keys : List String) :
    delKeys ((a, b) :: m) keys =
      if a ∈ keys then delKeys m keys else (a, b) :: delKeys m keys := by
  unfold delKeys
  rw [List.filter_cons]
  by_cases h : a ∈ keys <;> simp [h]

theorem delKeys_get {α : Type} (m : GoMap α) (keys : List String) (k : String) :
    (delKeys m keys).get k = if k ∈ keys then none else m.get k := by
  induction m with
  | nil => simp [delKeys, GoMap.get]
  | cons e m ih =>
    obtain ⟨a, b⟩ := e
    rw [delKeys_cons]
    by_cases ha : a ∈ keys
    · rw [if_pos ha, ih]
      by_cases hk : a = k
      · subst hk
        simp [ha]
      · simp [GoMap.get, hk]
    · rw [if_neg ha]
      by_cases hk : a = k
      · subst hk
        simp [GoMap.get, ha]
      · simp only [GoMap.get, hk, if_false]
        exact ih

theorem mem_zRangeByScore (timestamps : GoMap Int) (cutoff : Int) (k : String) :
    k ∈ zRangeByScore timestamps cutoff ↔
      ∃ score, timestamps.get k = some score ∧ score ≤ cutoff := by
  unfold zRangeByScore
  rw [List.mem_filter]
  constructor
  · rintro ⟨_, h⟩
    cases hg : timestamps.get k with
    | none => simp [hg] at h
    | some score =>
      simp only [hg, decide_eq_true_eq] at h
      exact ⟨score, rfl, h⟩
  · rintro ⟨score, hg, hle⟩
    constructor
    · by_contra hk
      rw [← GoMap.get_eq_none_iff, hg] at hk
      cases hk
    · simp [hg, hle]

theorem Redis.send_ok (r : Redis) (ctx : Context) (cmd : Command)
    (hctx : ctx.Err = none) (hcmd : cmd ∉ r.failing) : r.send ctx cmd = none := by
  unfold Redis.send
  rw [hctx]
  simp only
  rw [if_neg hcmd]

theorem negInt64_eq_neg (d : Int) (hlo : -9223372036854775808 < d)
    (hhi : d < 9223372036854775808) : negInt64 d = -d := by
  unfold negInt64
  omega

theorem negInt64_min : negInt64 (-9223372036854775808) = -9223372036854775808 := by
  decide

theorem redisCache_Set_ok (codec : Codec) (expiry : Expiry) (r : Redis) (now : Int)
    (ctx : Context) (clientID : String) (profile : Profile) (ttl : Duration)
    (val compressed : Bytes) (hctx : ctx.Err = none)
    (hSET : Command.SET ∉ r.failing) (hZADD : Command.ZADD ∉ r.failing)
    (hm : codec.marshal profile = .ok val) (hz : codec.gzipWrite val = .ok compressed) :
    (redisCache.Set codec expiry r now ctx clientID profile ttl).1 =
      { kv := r.kv.set (redisKey clientID profile.ID)
          { value := compressed,
            expireAt := expiry ((r.live now (redisKey clientID profile.ID)).bind
              Entry.expireAt) now ttl },
        timestamps := r.timestamps.set (redisKey clientID profile.ID) (now / 1000000000),
        failing := r.failing } := by
  unfold redisCache.Set compress
  simp only [hm, hz, Redis.send_ok r ctx _ hctx hSET, Redis.send_ok r ctx _ hctx hZADD]

theorem DeleteOlderThan_kv_get (r : Redis) (now : Int) (ctx : Context) (olderThan : Duration)
    (k : String) (hctx : ctx.Err = none) (hZRANGE : Command.ZRANGEBYSCORE ∉ r.failing)
    (hDEL : Command.DEL ∉ r.failing) (hZREM : Command.ZREM ∉ r.failing) :
    (redisCache.DeleteOlderThan r now ctx olderThan).1.kv.get k =
      if k ∈ zRangeByScore r.timestamps ((now + negInt64 olderThan) / 1000000000) then none
      else r.kv.get k := by
  unfold redisCache.DeleteOlderThan
  simp only [Redis.send_ok r ctx _ hctx hZRANGE, Redis.send_ok r ctx _ hctx hDEL,
    Redis.send_ok r ctx _ hctx hZREM]
  split
  · rename_i h
    rw [List.length_eq_zero.mp h]
    simp
  · exact delKeys_get _ _ _

theorem DeleteOlderThan_timestamps_get (r : Redis) (now : Int) (ctx : Context)
    (olderThan : Duration) (k : String) (hctx : ctx.Err = none)
    (hZRANGE : Command.ZRANGEBYSCORE ∉ r.failing)
    (hDEL : Command.DEL ∉ r.failing) (hZREM : Command.ZREM ∉ r.failing) :
    (redisCache.DeleteOlderThan r now ctx olderThan).1.timestamps.get k =
      if k ∈ zRangeByScore r.timestamps ((now + negInt64 olderThan) / 1000000000) then none
      else r.timestamps.get k := by
  unfold redisCache.DeleteOlderThan
  simp only [Redis.send_ok r ctx _ hctx hZRANGE, Redis.send_ok r ctx _ hctx hDEL,
    Redis.send_ok r ctx _ hctx hZREM]
  split
  · rename_i h
    rw [List.length_eq_zero.mp h]
    simp
  · exact delKeys_get _ _ _

theorem DeleteOlderThan_failing (r : Redis) (now : Int) (ctx : Context)
    (olderThan : Duration) :
    (redisCache.DeleteOlderThan r now ctx olderThan).1.failing = r.failing := by
  unfold redisCache.DeleteOlderThan
  simp only
  repeat' split
  all_goals rfl

theorem redisCache_Get_congr (codec : Codec) (r r' : Redis) (now : Int) (ctx : Context)
    (clientID : String) (id : UUID) (hf : r'.failing = r.failing)
    (hk : r'.kv.get (redisKey clientID id) = r.kv.get (redisKey clientID id)) :
    redisCache.Get codec r' now ctx clientID id = redisCache.Get codec r now ctx clientID id := by
  unfold redisCache.Get Redis.send Redis.live
  rw [hf, hk]

theorem redisCache_Get_absent (codec : Codec) (r : Redis) (now : Int) (ctx : Context)
    (clientID : String) (id : UUID) (hctx : ctx.Err = none)
    (hGET : Command.GET ∉ r.failing) (hk : r.kv.get (redisKey clientID id) = none) :
    redisCache.Get codec r now ctx clientID id = (none, none) := by
  unfold redisCache.Get Redis.live
  rw [Redis.send_ok r ctx _ hctx hGET, hk]

/-- C8, counterexample. An entry written at second 100 and swept at second 110
with `maxAge` of 10 seconds has `T' - T = maxAge`, not more, and is deleted. -/
theorem eviction_boundary_counterexample :
    redisCache.Get idCodec
      (redisCache.Set idCodec (fun _ _ _ => none) ⟨[], [], []⟩ (100 * 1000000000)
        Context.Background "t" (NewProfile ⟨"u"⟩) 0).1
      (110 * 1000000000) Context.Background "t" ⟨"u"⟩ = (some (NewProfile ⟨"u"⟩), none) ∧
    ¬ ((110 : Int) - 100 > 10) ∧
    redisCache.Get idCodec
      (redisCache.DeleteOlderThan
        (redisCache.Set idCodec (fun _ _ _ => none) ⟨[], [], []⟩ (100 * 1000000000)
          Context.Background "t" (NewProfile ⟨"u"⟩) 0).1
        (110 * 1000000000) Context.Background (10 * 1000000000)).1
      (110 * 1000000000) Context.Background "t" ⟨"u"⟩ = (none, none) ∧
    (redisCache.DeleteOlderThan
        (redisCache.Set idCodec (fun _ _ _ => none) ⟨[], [], []⟩ (100 * 1000000000)
          Context.Background "t" (NewProfile ⟨"u"⟩) 0).1
        (110 * 1000000000) Context.Background (10 * 1000000000)).1 = ⟨[], [], []⟩ := by
  decide

/-- C8, amended. Take an entry written by `Set` at a clock reading whose Unix
second is `T`, any later store `mid` in which the entry has not been rewritten,
and a sweep `DeleteOlderThan(maxAge)` of `mid` at a clock reading whose Unix
second is `T'` (live contexts, the commands succeeding).  The entry is deleted
from the primary store and from the time index if and only if `T ≤ cutoff`,
where `cutoff` is the Unix second of the sweep reading plus the 64-bit negation
of `maxAge`; otherwise it keeps its value and its score and `Get` returns for
it what it returned before the sweep.  Unless `maxAge` is `math.MinInt64`,
`cutoff` is the Unix second of the sweep reading minus `maxAge`; for `maxAge`
a whole number of seconds the entry is deleted if and only if
`T' - T ≥ maxAge`, the boundary `T' - T = maxAge` included.  At
`math.MinInt64` the negation wraps and the cutoff lies some 292 years before
the sweep. -/
theorem eviction_boundary (codec : Codec) (expiry : Expiry) (r mid : Redis)
    (clientID : String) (profile : Profile) (nowSet nowSweep : Int)
    (ctxSet ctxSweep : Context) (ttl : Duration) (maxAge : Int) (val compressed : Bytes)
    (hctxSet : ctxSet.Err = none) (hctxSweep : ctxSweep.Err = none)
    (hSET : Command.SET ∉ r.failing) (hZADD : Command.ZADD ∉ r.failing)
    (hm : codec.marshal profile = .ok val) (hz : codec.gzipWrite val = .ok compressed)
    (hmidkv : mid.kv.get (redisKey clientID profile.ID) =
      (redisCache.Set codec expiry r nowSet ctxSet clientID profile ttl).1.kv.get
        (redisKey clientID profile.ID))
    (hmidts : mid.timestamps.get (redisKey clientID profile.ID) =
      (redisCache.Set codec expiry r nowSet ctxSet clientID profile ttl).1.timestamps.get
        (redisKey clientID profile.ID))
    (hZRANGE : Command.ZRANGEBYSCORE ∉ mid.failing) (hDEL : Command.DEL ∉ mid.failing)
    (hZREM : Command.ZREM ∉ mid.failing)
    (hlo : -9223372036854775808 ≤ maxAge) (hhi : maxAge < 9223372036854775808) :
    (nowSet / 1000000000 ≤ (nowSweep + negInt64 maxAge) / 1000000000 →
      (redisCache.DeleteOlderThan mid nowSweep ctxSweep maxAge).1.kv.get
        (redisKey clientID profile.ID) = none ∧
      (redisCache.DeleteOlderThan mid nowSweep ctxSweep maxAge).1.timestamps.get
        (redisKey clientID profile.ID) = none ∧
      ∀ (now : Int) (ctx : Context), ctx.Err = none → Command.GET ∉ mid.failing →
        redisCache.Get codec (redisCache.DeleteOlderThan mid nowSweep ctxSweep maxAge).1
          now ctx clientID profile.ID = (none, none)) ∧
    ((nowSweep + negInt64 maxAge) / 1000000000 < nowSet / 1000000000 →
      ((redisCache.DeleteOlderThan mid nowSweep ctxSweep maxAge).1.kv.get
        (redisKey clientID profile.ID)).map Entry.value = some compressed ∧
      (redisCache.DeleteOlderThan mid nowSweep ctxSweep maxAge).1.timestamps.get
        (redisKey clientID profile.ID) = some (nowSet / 1000000000) ∧
      ∀ (now : Int) (ctx : Context),
        redisCache.Get codec (redisCache.DeleteOlderThan mid nowSweep ctxSweep maxAge).1
          now ctx clientID profile.ID =
        redisCache.Get codec mid now ctx clientID profile.ID) ∧
    (maxAge ≠ -9223372036854775808 →
      (nowSweep + negInt64 maxAge) / 1000000000 = (nowSweep - maxAge) / 1000000000) ∧
    (∀ m : Int, maxAge = m * 1000000000 →
      (nowSet / 1000000000 ≤ (nowSweep + negInt64 maxAge) / 1000000000 ↔
        m ≤ nowSweep / 1000000000 - nowSet / 1000000000)) ∧
    (maxAge = -9223372036854775808 →
      (nowSweep + negInt64 maxAge) / 1000000000 =
        (nowSweep - 9223372036854775808) / 1000000000) := by
  have hset := redisCache_Set_ok codec expiry r nowSet ctxSet clientID profile ttl val
    compressed hctxSet hSET hZADD hm hz
  have hkv : (mid.kv.get (redisKey clientID profile.ID)).map Entry.value =
      some compressed := by
    rw [hmidkv, hset]
    simp only [GoMap.get_set_self, Option.map_some']
  have hts : mid.timestamps.get (redisKey clientID profile.ID) =
      some (nowSet / 1000000000) := by
    rw [hmidts, hset]
    exact GoMap.get_set_self _ _ _
  have hmem : redisKey clientID profile.ID ∈
      zRangeByScore mid.timestamps ((nowSweep + negInt64 maxAge) / 1000000000) ↔
      nowSet / 1000000000 ≤ (nowSweep + negInt64 maxAge) / 1000000000 := by
    rw [mem_zRangeByScore, hts]
    constructor
    · rintro ⟨score, h1, h2⟩
      rw [Option.some.inj h1]
      exact h2
    · intro h
      exact ⟨_, rfl, h⟩
  have h1 := DeleteOlderThan_kv_get mid nowSweep ctxSweep maxAge
    (redisKey clientID profile.ID) hctxSweep hZRANGE hDEL hZREM
  have h2 := DeleteOlderThan_timestamps_get mid nowSweep ctxSweep maxAge
    (redisKey clientID profile.ID) hctxSweep hZRANGE hDEL hZREM
  refine ⟨?_, ?_, ?_, ?_, ?_⟩
  · intro hle
    rw [if_pos (hmem.mpr hle)] at h1 h2
    refine ⟨h1, h2, ?_⟩
    intro now ctx hctx hGET
    exact redisCache_Get_absent codec _ now ctx clientID profile.ID hctx
      (by rw [DeleteOlderThan_failing]; exact hGET) h1
  · intro hlt
    have hnin : ¬ redisKey clientID profile.ID ∈
        zRangeByScore mid.timestamps ((nowSweep + negInt64 maxAge) / 1000000000) :=
      fun hin => absurd (hmem.mp hin) (not_le.mpr hlt)
    rw [if_neg hnin] at h1 h2
    refine ⟨by rw [h1]; exact hkv, h2.trans hts, ?_⟩
    intro now ctx
    exact redisCache_Get_congr codec _ _ now ctx clientID profile.ID
      (DeleteOlderThan_failing _ _ _ _) h1
  · intro hne
    rw [negInt64_eq_neg maxAge (by omega) hhi]
    rfl
  · intro m hmeq
    have hne : maxAge ≠ -9223372036854775808 := by omega
    rw [negInt64_eq_neg maxAge (by omega) hhi, hmeq]
    omega
  · intro hmin
    rw [hmin, negInt64_min]
    rfl

/-- C8 amended, at an entry written half a microsecond after second 100 and
swept at second 105.9 with `maxAge` of 10 seconds: it is kept. -/
theorem eviction_boundary_witness :
    Context.Background.Err = none ∧
    (⟨[], [], []⟩ : Redis).failing = [] ∧
    idCodec.marshal (NewProfile ⟨"u"⟩) = .ok [1] ∧ idCodec.gzipWrite [1] = .ok [31, 1] ∧
    (redisCache.Set idCodec (fun _ _ _ => none) ⟨[], [], []⟩ 100000000500
      Context.Background "t" (NewProfile ⟨"u"⟩) 0).1.failing = [] ∧
    ((105900000000 : Int) + negInt64 10000000000) / 1000000000 <
      (100000000500 : Int) / 1000000000 ∧
    (redisCache.DeleteOlderThan
      (redisCache.Set idCodec (fun _ _ _ => none) ⟨[], [], []⟩ 100000000500
        Context.Background "t" (NewProfile ⟨"u"⟩) 0).1
      105900000000 Context.Background 10000000000).1.timestamps.get
        (redisKey "t" (NewProfile ⟨"u"⟩).ID) = some (100000000500 / 1000000000) :=
  ⟨rfl, rfl, rfl, rfl, by decide, by decide,
    ((eviction_boundary idCodec (fun _ _ _ => none) ⟨[], [], []⟩
      (redisCache.Set idCodec (fun _ _ _ => none) ⟨[], [], []⟩ 100000000500
        Context.Background "t" (NewProfile ⟨"u"⟩) 0).1
      "t" (NewProfile ⟨"u"⟩)
      100000000500 105900000000 Context.Background Context.Background 0 10000000000 [1]
      [31, 1] rfl rfl (by decide) (by decide) rfl rfl rfl rfl (by decide) (by decide)
      (by decide) (by decide) (by decide)).2.1 (by decide)).2.1⟩

/-! ## C10: the response object of `ProfileHandler` -/

theorem GoMap.contains_set {α : Type} (m : GoMap α) (a k : String) (v : α) :
    (m.set a v).contains k = true ↔ a = k ∨ m.contains k = true := by
  unfold GoMap.contains
  rw [GoMap.get_set]
  by_cases h : a = k <;> simp [h]

theorem foldl_set_contains {α : Type} (l : GoMap α) (m : GoMap α) (k : String) :
    (l.foldl (fun m e => m.set e.1 e.2) m).contains k = true ↔
      m.contains k = true ∨ l.contains k = true := by
  induction l generalizing m with
  | nil => simp [GoMap.contains, GoMap.get]
  | cons e l ih =>
    obtain ⟨a, b⟩ := e
    rw [List.foldl_cons, ih, GoMap.contains_set]
    have : GoMap.contains ((a, b) :: l) k = true ↔ a = k ∨ GoMap.contains l k = true := by
      unfold GoMap.contains
      by_cases h : a = k <;> simp [GoMap.get, h]
    rw [this]
    tauto

theorem foldl_set_get_of_not_mem {α : Type} (l : GoMap α) (m : GoMap α) (k : String)
    (h : k ∉ l.keys) : (l.foldl (fun m e => m.set e.1 e.2) m).get k = m.get k := by
  induction l generalizing m with
  | nil => rfl
  | cons e l ih =>
    simp only [GoMap.keys, List.map_cons, List.mem_cons, not_or] at h
    rw [List.foldl_cons, ih _ h.2, GoMap.get_set_other _ _ _ _ (fun hh => h.1 hh.symm)]

theorem foldl_set_get_of_mem {α : Type} (l : GoMap α) (m : GoMap α) (k : String) (v : α)
    (hn : l.keys.Nodup) (h : (k, v) ∈ l) :
    (l.foldl (fun m e => m.set e.1 e.2) m).get k = some v := by
  induction l generalizing m with
  | nil => simp at h
  | cons e l ih =>
    simp only [GoMap.keys, List.map_cons, List.nodup_cons] at hn
    rw [List.foldl_cons]
    rcases List.mem_cons.mp h with h1 | h1
    · subst h1
      rw [foldl_set_get_of_not_mem l _ k hn.1, GoMap.get_set_self]
    · exact ih _ hn.2 h1

theorem flatten_contains (p : Profile) (k : String) :
    (flatten p).contains k = true ↔
      k = "id" ∨ (k = "email" ∧ p.Email ≠ "") ∨ (k = "name" ∧ p.Name ≠ "") ∨
      (k = "avatar_url" ∧ p.AvatarURL ≠ "") ∨ p.Fields.contains k = true := by
  unfold flatten
  rw [foldl_set_contains]
  have hbase : ∀ v : Value, GoMap.contains [("id", v)] k = true ↔ k = "id" := by
    intro v
    constructor
    · intro h
      by_contra hne
      have hg : GoMap.get [("id", v)] k = none := by
        simp [GoMap.get, Ne.symm hne]
      unfold GoMap.contains at h
      rw [hg] at h
      cases h
    · intro h
      subst h
      rfl
  by_cases he : p.Email = "" <;> by_cases hn : p.Name = "" <;>
    by_cases ha : p.AvatarURL = "" <;>
    simp only [he, hn, ha, ne_eq, not_true_eq_false, not_false_eq_true, if_true, if_false,
      GoMap.contains_set, hbase, and_true, and_false, false_or, or_false] <;>
    constructor <;> intro h <;> simp only [eq_comm] at h ⊢ <;> tauto

theorem GetProfile_profile {σ : Type} (uc : profileAggregator σ) (st : σ) (ctx : Context)
    (clientID : String) (id : UUID) (sched : Schedule) :
    ∃ p, (uc.GetProfile st ctx clientID id sched).profile = some p := by
  unfold profileAggregator.GetProfile
  split
  · exact ⟨_, rfl⟩
  · exact ⟨_, aggregate_profile uc st ctx clientID id sched⟩

theorem ProfileHandler_ok {σ : Type} (parse : String → Option UUID) (uc : profileAggregator σ)
    (st : σ) (r : Request) (sched : Schedule) (id : UUID) (p : Profile)
    (hid : requestID r ≠ "") (hparse : parse (requestID r) = some id)
    (hp : (uc.GetProfile st (r.ctx.WithTimeout 500000000)
      (if r.ClientIDHeader = "" then "default" else r.ClientIDHeader) id sched).profile =
        some p) :
    (ProfileHandler parse uc st r sched).status = 200 ∧
    (ProfileHandler parse uc st r sched).body = flatten p := by
  unfold ProfileHandler
  simp only [hid, if_false, hparse, GetProfile_err, hp]
  exact ⟨trivial, trivial⟩

/-- C10, counterexample. A provider that contributes an extra field named
`fields` to an unrestricted tenant makes the response object carry the
top-level key `fields`. -/
theorem flat_response_counterexample :
    (ProfileHandler (fun s => some ⟨s⟩)
      (NewProfileAggregator 200000000 none
        [timedSource "extras" 0 [("fields", ⟨.str "x", 0⟩)]] : profileAggregator Unit) ()
      ⟨"/profile/u", "", "", Context.Background⟩ id).status = 200 ∧
    (ProfileHandler (fun s => some ⟨s⟩)
      (NewProfileAggregator 200000000 none
        [timedSource "extras" 0 [("fields", ⟨.str "x", 0⟩)]] : profileAggregator Unit) ()
      ⟨"/profile/u", "", "", Context.Background⟩ id).body.contains "fields" = true := by
  decide

/-- C10, amended. For a request with a well-formed identity the handler
answers 200 with a flat object whose top-level keys are `id`, each of `email`,
`name`, `avatar_url` whose attribute is non-empty, and the keys of `Fields`:
it has a top-level key `fields` exactly when `Fields` has a key named
`fields`, and every key of `Fields` is a top-level key with its value.  For a
profile built by aggregation, `name`, `email` and `avatar_url` are top-level
keys exactly when the attribute is non-empty. -/
theorem flat_response {σ : Type} (parse : String → Option UUID) (uc : profileAggregator σ)
    (st : σ) (r : Request) (sched : Schedule) (id : UUID)
    (hid : requestID r ≠ "") (hparse : parse (requestID r) = some id) :
    ∃ p, (uc.GetProfile st (r.ctx.WithTimeout 500000000)
        (if r.ClientIDHeader = "" then "default" else r.ClientIDHeader) id sched).profile =
          some p ∧
      (ProfileHandler parse uc st r sched).status = 200 ∧
      (∀ k, (ProfileHandler parse uc st r sched).body.contains k = true ↔
        k = "id" ∨ (k = "email" ∧ p.Email ≠ "") ∨ (k = "name" ∧ p.Name ≠ "") ∨
        (k = "avatar_url" ∧ p.AvatarURL ≠ "") ∨ p.Fields.contains k = true) ∧
      ((ProfileHandler parse uc st r sched).body.contains "fields" = true ↔
        p.Fields.contains "fields" = true) ∧
      (p.Fields.keys.Nodup → ∀ k v, p.Fields.get k = some v →
        (ProfileHandler parse uc st r sched).body.get k = some v) ∧
      (cacheLookup uc st (r.ctx.WithTimeout 500000000)
          (if r.ClientIDHeader = "" then "default" else r.ClientIDHeader) id = none →
        p.Fields.keys.Nodup ∧
        ((ProfileHandler parse uc st r sched).body.contains "name" = true ↔ p.Name ≠ "") ∧
        ((ProfileHandler parse uc st r sched).body.contains "email" = true ↔ p.Email ≠ "") ∧
        ((ProfileHandler parse uc st r sched).body.contains "avatar_url" = true ↔
          p.AvatarURL ≠ "")) := by
  obtain ⟨p, hp⟩ := GetProfile_profile uc st (r.ctx.WithTimeout 500000000)
    (if r.ClientIDHeader = "" then "default" else r.ClientIDHeader) id sched
  obtain ⟨hst, hbody⟩ := ProfileHandler_ok parse uc st r sched id p hid hparse hp
  refine ⟨p, hp, hst, ?_, ?_, ?_, ?_⟩
  rotate_left 3
  · intro hmiss
    rw [GetProfile_of_miss uc st _ _ id sched hmiss, aggregate_profile] at hp
    have hp' := (Option.some.inj hp).symm
    have hno : ∀ k, (k = "name" ∨ k = "email" ∨ k = "avatar_url") →
        ¬ p.Fields.contains k = true := by
      intro k hk hc
      rw [hp'] at hc
      have := buildProfile_Fields_allowed uc _ id _ k hc
      rcases hk with hk | hk | hk
      · exact this.1 hk
      · exact this.2.1 hk
      · exact this.2.2.1 hk
    refine ⟨?_, ?_, ?_, ?_⟩
    · rw [hp', buildProfile_eq]
      exact foldPartition_Fields_keys_nodup uc _ _ _ List.nodup_nil
    · rw [hbody, flatten_contains]
      have := hno "name" (Or.inl rfl)
      constructor
      · intro h
        rcases h with h | ⟨h, _⟩ | ⟨_, h⟩ | ⟨h, _⟩ | h
        · exact absurd h (by decide)
        · exact absurd h (by decide)
        · exact h
        · exact absurd h (by decide)
        · exact absurd h this
      · intro h
        exact Or.inr (Or.inr (Or.inl ⟨rfl, h⟩))
    · rw [hbody, flatten_contains]
      have := hno "email" (Or.inr (Or.inl rfl))
      constructor
      · intro h
        rcases h with h | ⟨_, h⟩ | ⟨h, _⟩ | ⟨h, _⟩ | h
        · exact absurd h (by decide)
        · exact h
        · exact absurd h (by decide)
        · exact absurd h (by decide)
        · exact absurd h this
      · intro h
        exact Or.inr (Or.inl ⟨rfl, h⟩)
    · rw [hbody, flatten_contains]
      have := hno "avatar_url" (Or.inr (Or.inr rfl))
      constructor
      · intro h
        rcases h with h | ⟨h, _⟩ | ⟨h, _⟩ | ⟨_, h⟩ | h
        · exact absurd h (by decide)
        · exact absurd h (by decide)
        · exact absurd h (by decide)
        · exact h
        · exact absurd h this
      · intro h
        exact Or.inr (Or.inr (Or.inr (Or.inl ⟨rfl, h⟩)))
  · intro k
    rw [hbody]
    exact flatten_contains p k
  · rw [hbody, flatten_contains]
    constructor
    · intro h
      rcases h with h | ⟨h, _⟩ | ⟨h, _⟩ | ⟨h, _⟩ | h
      · exact absurd h (by decide)
      · exact absurd h (by decide)
      · exact absurd h (by decide)
      · exact absurd h (by decide)
      · exact h
    · intro h
      exact Or.inr (Or.inr (Or.inr (Or.inr h)))
  · intro hn k v hget
    rw [hbody]
    unfold flatten
    exact foldl_set_get_of_mem _ _ k v hn (GoMap.mem_of_get _ _ _ hget)

/-- C10 amended, at the server's providers: the response has no `fields` key. -/
theorem flat_response_witness :
    requestID ⟨"/profile/u", "", "", Context.Background⟩ ≠ "" ∧
    (fun s => some (UUID.mk s)) (requestID ⟨"/profile/u", "", "", Context.Background⟩) =
      some ⟨"u"⟩ ∧
    (ProfileHandler (fun s => some ⟨s⟩) serverAggregator ()
      ⟨"/profile/u", "", "", Context.Background⟩ id).status = 200 := by
  obtain ⟨_, _, h, _⟩ := flat_response (fun s => some ⟨s⟩) serverAggregator ()
    ⟨"/profile/u", "", "", Context.Background⟩ id ⟨"u"⟩ (by decide) (by decide)
  exact ⟨by decide, by decide, h⟩

/-! ## C11: the merge step and the tie-break -/

theorem mergeData_get_keep (best data : GoMap DataPoint) (k : String) (dp : DataPoint)
    (hget : best.get k = some dp)
    (h : ∀ e ∈ data, e.1 = k → dp.Priority ≤ e.2.Priority) :
    (mergeData best data).get k = some dp := by
  induction data generalizing best with
  | nil => exact hget
  | cons e data ih =>
    rw [mergeData_cons]
    apply ih _ _ (fun x hx => h x (List.mem_cons_of_mem _ hx))
    by_cases hk : e.1 = k
    · have hle := h e (List.mem_cons_self _ _) hk
      rw [hk, mergeContribution_get_self, hget]
      simp only
      rw [if_neg (by omega)]
    · rw [mergeContribution_get_other _ _ _ _ hk]
      exact hget

theorem mergeData_holder_mem (best data : GoMap DataPoint) (k : String) (cur : DataPoint)
    (hbest : best.get k = none) (h : (mergeData best data).get k = some cur) :
    (k, cur) ∈ data := by
  rcases mergeData_mem best data _ (GoMap.mem_of_get _ _ _ h) with h1 | h1
  · exact h1
  · exfalso
    have hk : k ∈ GoMap.keys best := List.mem_map.mpr ⟨(k, cur), h1, rfl⟩
    exact ((GoMap.get_eq_none_iff best k).mp hbest) hk

/-- The holder of `k` after a run split at the contribution `(k, dp)`, when
every earlier contribution to `k` has a strictly higher priority number and
every later one has one at least as high. -/
theorem mergeData_holder_at (best pre post : GoMap DataPoint) (k : String) (dp : DataPoint)
    (hbest : best.get k = none)
    (hpre : ∀ e ∈ pre, e.1 = k → dp.Priority < e.2.Priority)
    (hpost : ∀ e ∈ post, e.1 = k → dp.Priority ≤ e.2.Priority) :
    (mergeData best (pre ++ (k, dp) :: post)).get k = some dp := by
  rw [mergeData_append, mergeData_cons]
  apply mergeData_get_keep _ _ _ _ _ hpost
  rw [mergeContribution_get_self]
  cases hcur : (mergeData best pre).get k with
  | none => rfl
  | some cur =>
    have hmem := mergeData_holder_mem best pre k cur hbest hcur
    have hlt := hpre _ hmem rfl
    simp only
    rw [if_pos hlt]

theorem earliestMinimum_pred_iff (k : String) (run : GoMap DataPoint)
    (e : String × DataPoint) :
    (decide (e.1 = k) &&
      run.all (fun e' => decide (e'.1 = k → e.2.Priority ≤ e'.2.Priority))) = true ↔
    e.1 = k ∧ ∀ e' ∈ run, e'.1 = k → e.2.Priority ≤ e'.2.Priority := by
  rw [Bool.and_eq_true, decide_eq_true_iff, List.all_eq_true]
  constructor
  · rintro ⟨h1, h2⟩
    exact ⟨h1, fun e' he' => of_decide_eq_true (h2 e' he')⟩
  · rintro ⟨h1, h2⟩
    exact ⟨h1, fun e' he' => decide_eq_true (h2 e' he')⟩

theorem mergeData_get_eq_earliestMinimum (start run : GoMap DataPoint) (k : String)
    (hstart : start.get k = none) :
    (mergeData start run).get k = earliestMinimum k run := by
  unfold earliestMinimum
  cases hf : run.find? (fun e => decide (e.1 = k) &&
      run.all (fun e' => decide (e'.1 = k → e.2.Priority ≤ e'.2.Priority))) with
  | none =>
    rw [List.find?_eq_none] at hf
    cases hget : (mergeData start run).get k with
    | none => rfl
    | some cur =>
      exfalso
      have hmem := mergeData_holder_mem start run k cur hstart hget
      apply hf (k, cur) hmem
      rw [earliestMinimum_pred_iff]
      refine ⟨rfl, ?_⟩
      intro e' he' hk
      obtain ⟨cur', hget', hle⟩ := mergeData_holder_of_mem start run k e'.2
        (by rw [← hk]; exact he')
      rw [hget] at hget'
      rw [Option.some.inj hget']
      exact hle
  | some e =>
    rw [List.find?_eq_some] at hf
    obtain ⟨hP, pre, post, hrun, hpre⟩ := hf
    rw [earliestMinimum_pred_iff] at hP
    obtain ⟨hk, hmin⟩ := hP
    have he : e = (k, e.2) := by rw [← hk]
    have hrun' : run = pre ++ (k, e.2) :: post := by rw [← he]; exact hrun
    show (mergeData start run).get k = some e.2
    rw [hrun']
    apply mergeData_holder_at start pre post k e.2 hstart
    · intro a ha hak
      have hna := hpre a ha
      by_contra hlt
      have hPa : (decide (a.1 = k) &&
          run.all (fun e' => decide (e'.1 = k → a.2.Priority ≤ e'.2.Priority))) = true := by
        rw [earliestMinimum_pred_iff]
        refine ⟨hak, ?_⟩
        intro e' he' hk'
        have := hmin e' he' hk'
        omega
      rw [hPa] at hna
      cases hna
    · intro b hb hbk
      apply hmin b _ hbk
      rw [hrun]
      exact List.mem_append_right _ (List.mem_cons_of_mem _ hb)

/-- C11. Merge step and tie-break: applying a contribution `(k, dp)` to `best`
performs the assignment `best[k] = dp` if and only if `k` has no holder or
`dp.Priority` is strictly below the holder's priority, and never changes the
entry of another key.  Hence, for a run of contributions applied in arrival
order to a map without a holder for `k`, the final holder of `k` is the
earliest-applied contribution among those to `k` with the minimum priority:
the contribution before which every contribution to `k` has a strictly higher
priority number and after which none has a lower one; of two contributions
with equal priority the first stays. -/
theorem merge_step_tie_break (best start run : GoMap DataPoint) (k : String)
    (dp : DataPoint) (hstart : start.get k = none) :
    ((best.get k = none ∨ ∃ cur, best.get k = some cur ∧ dp.Priority < cur.Priority) →
      mergeContribution best k dp = best.set k dp ∧
      (mergeContribution best k dp).get k = some dp) ∧
    (¬ (best.get k = none ∨ ∃ cur, best.get k = some cur ∧ dp.Priority < cur.Priority) →
      mergeContribution best k dp = best) ∧
    (∀ k', k' ≠ k → (mergeContribution best k dp).get k' = best.get k') ∧
    (mergeData start run).get k = earliestMinimum k run ∧
    (∀ pre post holder, run = pre ++ (k, holder) :: post →
      (∀ e ∈ pre, e.1 = k → holder.Priority < e.2.Priority) →
      (∀ e ∈ post, e.1 = k → holder.Priority ≤ e.2.Priority) →
      (mergeData start run).get k = some holder) ∧
    (∀ first second : DataPoint, first.Priority = second.Priority →
      (mergeData start [(k, first), (k, second)]).get k = some first) := by
  refine ⟨?_, ?_, ?_, ?_, ?_, ?_⟩
  · intro h
    have hset : mergeContribution best k dp = best.set k dp := by
      unfold mergeContribution
      rcases h with h | ⟨cur, h, hlt⟩
      · rw [h]
      · rw [h]
        simp only
        rw [if_pos hlt]
    exact ⟨hset, by rw [hset]; exact GoMap.get_set_self _ _ _⟩
  · intro h
    unfold mergeContribution
    cases hget : best.get k with
    | none => exact absurd (Or.inl hget) h
    | some cur =>
      simp only
      rw [if_neg (fun hlt => h (Or.inr ⟨cur, hget, hlt⟩))]
  · intro k' hk
    exact mergeContribution_get_other best k k' dp (Ne.symm hk)
  · exact mergeData_get_eq_earliestMinimum start run k hstart
  · intro pre post holder hrun hpre hpost
    rw [hrun]
    exact mergeData_holder_at start pre post k holder hstart hpre hpost
  · intro first second heq
    apply mergeData_holder_at start [] [(k, second)] k first hstart
    · intro e he
      cases he
    · intro e he _
      rw [List.mem_singleton.mp he]
      exact le_of_eq heq

/-- C11 at the `name` contributions of `Source1`, `Source2` and a later
provider that ties with `Source2`: the first of the two at priority 0 holds. -/
theorem merge_step_tie_break_witness :
    GoMap.get ([] : GoMap DataPoint) "name" = none ∧
    (mergeData []
      [("email", ⟨.str "test@test.com", 0⟩), ("name", ⟨.str "Bar Dor", 2⟩),
       ("name", ⟨.str "John Foo", 0⟩), ("name", ⟨.str "Late", 0⟩)]).get "name" =
      some ⟨.str "John Foo", 0⟩ :=
  ⟨rfl,
    (merge_step_tie_break [] []
      [("email", ⟨.str "test@test.com", 0⟩), ("name", ⟨.str "Bar Dor", 2⟩),
       ("name", ⟨.str "John Foo", 0⟩), ("name", ⟨.str "Late", 0⟩)] "name"
      ⟨.str "John Foo", 0⟩ rfl).2.2.2.1.trans (by decide)⟩

end ProfileAggregator
